import Mathlib

/-!
Shallow embedding of the RESTifyMCP server core (TypeScript) in Lean 4,
used to check the natural-language specification against the code.

Modelling conventions:
* JavaScript runtime values flowing through the tool-schema sanitizer are
  modelled by the inductive `Json` below (JS `undefined` at the call sites
  that can receive it is modelled with `Option`).
* JS `Map` objects and plain objects used as dictionaries are modelled as
  association lists `List (String × α)` in iteration (= insertion) order;
  `mapGet` is `Map.get` / property read (first matching key), `mapSet` is
  `Map.set` / property write (update in place, append if absent).
* JS numbers are `JsNum` (either NaN or an exact rational); the lossy parts
  of builtin coercions (`Number(string)`, decimal rendering) are modelled
  conservatively and are commented where they are approximate.
* SHA-256 is kept as an explicit function parameter `sha` of the few
  definitions that mention it; no theorem below depends on properties of
  the real hash beyond those stated as hypotheses.
-/

set_option maxHeartbeats 1000000
set_option maxRecDepth 100000

namespace RESTifyMCP

/-- JavaScript number: NaN or an exact rational value. -/
inductive JsNum where
  | nan
  | val (q : Rat)
deriving DecidableEq, Repr

/-- JSON-ish JavaScript runtime value (no `undefined`; call sites that may
see `undefined` use `Option Json`). Object entries are kept in property
insertion order, as JS does. -/
inductive Json where
  | null
  | bool (b : Bool)
  | num (n : JsNum)
  | str (s : String)
  | arr (elems : List Json)
  | obj (entries : List (String × Json))
deriving Repr

mutual

def jsonBEq : Json → Json → Bool
  | .null, .null => true
  | .bool a, .bool b => a == b
  | .num a, .num b => a == b
  | .str a, .str b => a == b
  | .arr a, .arr b => jsonListBEq a b
  | .obj a, .obj b => jsonEntriesBEq a b
  | _, _ => false

def jsonListBEq : List Json → List Json → Bool
  | [], [] => true
  | x :: xs, y :: ys => jsonBEq x y && jsonListBEq xs ys
  | _, _ => false

def jsonEntriesBEq : List (String × Json) → List (String × Json) → Bool
  | [], [] => true
  | (k, v) :: xs, (k', v') :: ys => k == k' && jsonBEq v v' && jsonEntriesBEq xs ys
  | _, _ => false

end

mutual

theorem jsonBEq_eq : ∀ a b : Json, jsonBEq a b = true ↔ a = b
  | .null, .null => by simp [jsonBEq]
  | .bool a, .bool b => by simp [jsonBEq]
  | .num a, .num b => by simp [jsonBEq]
  | .str a, .str b => by simp [jsonBEq]
  | .arr a, .arr b => by simp [jsonBEq, jsonListBEq_eq a b]
  | .obj a, .obj b => by simp [jsonBEq, jsonEntriesBEq_eq a b]
  | .null, .bool _ | .null, .num _ | .null, .str _ | .null, .arr _ | .null, .obj _
  | .bool _, .null | .bool _, .num _ | .bool _, .str _ | .bool _, .arr _ | .bool _, .obj _
  | .num _, .null | .num _, .bool _ | .num _, .str _ | .num _, .arr _ | .num _, .obj _
  | .str _, .null | .str _, .bool _ | .str _, .num _ | .str _, .arr _ | .str _, .obj _
  | .arr _, .null | .arr _, .bool _ | .arr _, .num _ | .arr _, .str _ | .arr _, .obj _
  | .obj _, .null | .obj _, .bool _ | .obj _, .num _ | .obj _, .str _ | .obj _, .arr _ => by
      simp [jsonBEq]

theorem jsonListBEq_eq : ∀ xs ys : List Json, jsonListBEq xs ys = true ↔ xs = ys
  | [], [] => by simp [jsonListBEq]
  | x :: xs, y :: ys => by
      simp [jsonListBEq, jsonBEq_eq x y, jsonListBEq_eq xs ys]
  | [], _ :: _ => by simp [jsonListBEq]
  | _ :: _, [] => by simp [jsonListBEq]

theorem jsonEntriesBEq_eq :
    ∀ kvs kvs' : List (String × Json), jsonEntriesBEq kvs kvs' = true ↔ kvs = kvs'
  | [], [] => by simp [jsonEntriesBEq]
  | (k, v) :: xs, (k', v') :: ys => by
      simp [jsonEntriesBEq, jsonBEq_eq v v', jsonEntriesBEq_eq xs ys, and_assoc]
  | [], _ :: _ => by simp [jsonEntriesBEq]
  | _ :: _, [] => by simp [jsonEntriesBEq]

end

instance : DecidableEq Json := fun a b =>
  decidable_of_iff (jsonBEq a b = true) (jsonBEq_eq a b)

/-! ### Association-list model of JS `Map` / object dictionaries -/

/-- Read a key (JS `Map.get` / property read): first matching entry. -/
def mapGet {α : Type} : List (String × α) → String → Option α
  | [], _ => none
  | (k, v) :: rest, key => if k = key then some v else mapGet rest key

/-- Write a key (JS `Map.set` / property write): update in place keeping
the original insertion position, append at the end if the key is new. -/
def mapSet {α : Type} : List (String × α) → String → α → List (String × α)
  | [], key, v => [(key, v)]
  | (k, w) :: rest, key, v =>
      if k = key then (k, v) :: rest else (k, w) :: mapSet rest key v

/-- Delete a key (JS `Map.delete`). -/
def mapRemove {α : Type} : List (String × α) → String → List (String × α)
  | [], _ => []
  | (k, v) :: rest, key =>
      if k = key then rest else (k, v) :: mapRemove rest key

theorem mapGet_append {α : Type} (l₁ l₂ : List (String × α)) (k : String) :
    mapGet (l₁ ++ l₂) k = ((mapGet l₁ k).rec (mapGet l₂ k) fun v => some v) := by
  induction l₁ with
  | nil => simp [mapGet]
  | cons hd tl ih =>
      obtain ⟨k', v'⟩ := hd
      by_cases h : k' = k <;> simp [mapGet, h, ih]

theorem mapGet_append_of_none {α : Type} {l₁ : List (String × α)} {k : String}
    (h : mapGet l₁ k = none) (l₂ : List (String × α)) :
    mapGet (l₁ ++ l₂) k = mapGet l₂ k := by
  rw [mapGet_append, h]

theorem mapGet_append_of_some {α : Type} {l₁ : List (String × α)} {k : String} {v : α}
    (h : mapGet l₁ k = some v) (l₂ : List (String × α)) :
    mapGet (l₁ ++ l₂) k = some v := by
  rw [mapGet_append, h]

theorem mapGet_eq_none_of_keys {α : Type} {l : List (String × α)} {k : String}
    (h : ∀ p ∈ l, p.1 ≠ k) : mapGet l k = none := by
  induction l with
  | nil => rfl
  | cons hd tl ih =>
      obtain ⟨k', v'⟩ := hd
      have hk : k' ≠ k := h (k', v') (List.mem_cons_self _ _)
      simp [mapGet, hk]
      exact ih fun p hp => h p (List.mem_cons_of_mem _ hp)

/-! ### String helpers

`strTake s n` models JS `s.substring(0, n)` and `startsDollar` models
`key.startsWith('$')` (a one-character prefix test). -/

/-- JS `s.substring(0, n)` (modelled on characters). -/
def strTake (s : String) (n : Nat) : String := ⟨s.data.take n⟩

/-- JS `key.startsWith('$')`. -/
def startsDollar (s : String) : Bool := s.data.head? = some '$'

theorem strTake_data (s : String) (n : Nat) : (strTake s n).data = s.data.take n := rfl

theorem string_append_data (a b : String) : (a ++ b).data = a.data ++ b.data := by
  cases a; cases b; rfl

theorem string_length_eq (s : String) : s.length = s.data.length := rfl

/-- Decimal digit character for `d % 10`, as produced by JS array index
stringification (`Object.entries` on arrays yields decimal index keys). -/
def digitChar : Nat → Char
  | 0 => '0'
  | 1 => '1'
  | 2 => '2'
  | 3 => '3'
  | 4 => '4'
  | 5 => '5'
  | 6 => '6'
  | 7 => '7'
  | 8 => '8'
  | _ => '9'

/-- Decimal digit list of `n`, with explicit fuel (fuel `n + 1` always
suffices since the value shrinks by a factor of ten per step). -/
def natKeyChars : Nat → Nat → List Char
  | 0, _ => []
  | fuel + 1, n =>
      if n < 10 then [digitChar n]
      else natKeyChars fuel (n / 10) ++ [digitChar (n % 10)]

/-- Decimal string of an array index, the key produced by `Object.entries`
on a JS array. -/
def natKey (n : Nat) : String := ⟨natKeyChars (n + 1) n⟩

theorem digitChar_isDigit (d : Nat) : (digitChar d).isDigit = true := by
  rcases d with _ | _ | _ | _ | _ | _ | _ | _ | _ | _ | d <;> rfl

theorem natKeyChars_isDigit :
    ∀ fuel n c, c ∈ natKeyChars fuel n → c.isDigit = true := by
  intro fuel
  induction fuel with
  | zero => intro n c hc; simp [natKeyChars] at hc
  | succ fuel ih =>
      intro n c hc
      by_cases h : n < 10
      · simp [natKeyChars, h] at hc
        subst hc; exact digitChar_isDigit n
      · simp [natKeyChars, h] at hc
        rcases hc with hc | hc
        · exact ih _ _ hc
        · subst hc; exact digitChar_isDigit _

theorem natKey_ne_of_nondigit (n : Nat) (s : String) (c : Char)
    (hc : c ∈ s.data) (hnd : c.isDigit = false) : natKey n ≠ s := by
  intro h
  have hdata : (natKey n).data = s.data := by rw [h]
  have : c ∈ (natKey n).data := by rw [hdata]; exact hc
  have := natKeyChars_isDigit (n + 1) n c this
  rw [hnd] at this
  exact Bool.false_ne_true this

theorem natKey_ne_default (n : Nat) : natKey n ≠ "default" :=
  natKey_ne_of_nondigit n "default" 'd' (by decide) (by decide)

theorem natKey_ne_required (n : Nat) : natKey n ≠ "required" :=
  natKey_ne_of_nondigit n "required" 'r' (by decide) (by decide)

theorem natKey_ne_enum (n : Nat) : natKey n ≠ "enum" :=
  natKey_ne_of_nondigit n "enum" 'e' (by decide) (by decide)

theorem natKey_ne_description (n : Nat) : natKey n ≠ "description" :=
  natKey_ne_of_nondigit n "description" 'd' (by decide) (by decide)

theorem startsDollar_natKey (n : Nat) : startsDollar (natKey n) = false := by
  unfold startsDollar
  cases hh : (natKey n).data.head? with
  | none => simp
  | some c =>
      have hc : c ∈ (natKey n).data := List.mem_of_mem_head? hh
      have hd := natKeyChars_isDigit (n + 1) n c hc
      simp only [decide_eq_false_iff_not, Option.some.injEq]
      intro h
      subst h
      exact absurd hd (by decide)

/-! ### JavaScript builtin coercions

These model the JS builtins `String(v)`, `Number(v)` and `Boolean(v)`
used by `ensureDefaultValueMatchesType`. Decimal rendering of numbers and
numeric parsing of strings are approximated (precise IEEE formatting is
out of scope); every theorem below is insensitive to those two spots
because re-coercion only ever happens on values that are already of the
target type. -/

/-- JS truthiness test (`!v` is `jsFalsy v`). -/
def jsFalsy : Json → Bool
  | .null => true
  | .bool b => !b
  | .num .nan => true
  | .num (.val q) => q == 0
  | .str s => s == ""
  | .arr _ => false
  | .obj _ => false

/-- JS `typeof v === 'object'` together with `v !== null`. -/
def isJsObject : Json → Bool
  | .arr _ => true
  | .obj _ => true
  | _ => false

/-- JS `typeof v === 'object'` (which is true for `null` as well). -/
def isTypeofObject : Json → Bool
  | .null => true
  | .arr _ => true
  | .obj _ => true
  | _ => false

mutual

/-- JS `String(v)`. Number rendering is approximated by `toString` on the
rational; `String` of a string is the string itself, which is the only
case any proof relies on. -/
def jsToString : Json → String
  | .null => "null"
  | .bool true => "true"
  | .bool false => "false"
  | .num .nan => "NaN"
  | .num (.val q) => toString q
  | .str s => s
  | .arr xs => jsToStringElems xs
  | .obj _ => "[object Object]"

/-- JS array stringification: elements joined with `,`, with `null`
rendered empty inside arrays. -/
def jsToStringElems : List Json → String
  | [] => ""
  | [x] => jsToStringElem x
  | x :: xs => jsToStringElem x ++ "," ++ jsToStringElems xs

def jsToStringElem : Json → String
  | .null => ""
  | v => jsToString v

end

/-- JS `Number(v)`. String parsing is approximated by integer parsing
(`toInt?`); `Number` of a number is the number itself, which is the only
case any proof relies on. Arrays and objects other than `[]` coerce to
NaN here (JS would go through `ToPrimitive`; simplification noted). -/
def jsToNumber : Json → JsNum
  | .null => .val 0
  | .bool true => .val 1
  | .bool false => .val 0
  | .num n => n
  | .str s => if s = "" then .val 0 else
      match s.toInt? with
      | some i => .val i
      | none => .nan
  | .arr [] => .val 0
  | .arr _ => .nan
  | .obj _ => .nan

/-- JS `Boolean(v)`. -/
def jsToBoolean (v : Json) : Bool := !jsFalsy v

/-! ### OpenAPI generator (`src/server/openapi-generator.ts`)

`DefaultOpenApiGenerator`: description truncation, schema sanitization and
per-tenant path generation. -/

/-- `DefaultOpenApiGenerator.truncateDescription`: unchanged up to 300
characters, otherwise the first 297 characters followed by `...`. The
falsy check `!description` is the empty-string test here. -/
def truncateDescription (description : String) : String :=
  if description = "" then ""
  else if description.length ≤ 300 then description
  else strTake description 297 ++ "..."

/-- `DefaultOpenApiGenerator.ensureRequiredIsArray`. The argument is
`Option Json` because the call sites can pass `undefined`. -/
def ensureRequiredIsArray (required : Option Json) : List String :=
  match required with
  | some (.arr xs) => xs.filterMap fun x => match x with | .str s => some s | _ => none
  | some (.str s) => [s]
  | some (.obj kvs) => kvs.map Prod.fst
  | _ => []

/-- `DefaultOpenApiGenerator.ensureEnumIsArray`. -/
def ensureEnumIsArray (enumValue : Option Json) : List Json :=
  match enumValue with
  | some (.arr xs) => xs
  | some (.obj kvs) => kvs.map Prod.snd
  | some .null => []
  | none => []
  | some v => [v]

/-- List of strings as a JSON array of strings. -/
def strsToJson (l : List String) : Json := .arr (l.map .str)

/-- `DefaultOpenApiGenerator.ensureDefaultValueMatchesType`. The `type`
argument is the (possibly absent) value found at key `type` of the
sanitized schema; the TS `switch` compares it against type-name strings,
so any non-string or unknown value falls through to the default branch. -/
def ensureDefaultValueMatchesType (defaultValue : Json) (type? : Option Json) : Json :=
  match type? with
  | some (.str t) =>
      if t = "string" then .str (jsToString defaultValue)
      else if t = "number" ∨ t = "integer" then .num (jsToNumber defaultValue)
      else if t = "boolean" then .bool (jsToBoolean defaultValue)
      else if t = "array" then
        match defaultValue with
        | .arr xs => .arr xs
        | v => .arr [v]
      else if t = "object" then
        if isTypeofObject defaultValue then defaultValue else .obj []
      else defaultValue
  | _ => defaultValue

mutual

/-- `DefaultOpenApiGenerator.sanitizeSchema`. Non-objects map to
`{ type: 'object' }`. For a JS object: the loop over `Object.entries`
drops `$`-prefixed keys and `default`, rewrites `required` / `enum` /
string-valued `description`, recurses into object-valued entries
(including `items`), and copies everything else; afterwards, if the input
had a `default` property, it is re-appended coerced to the sanitized
`type`. For a JS array (`typeof` is `object`), `Object.entries` yields
decimal index keys, none of which is `$`-prefixed or `default`, so the
result is the index-keyed object of the sanitized elements. -/
def sanitizeSchema : Json → Json
  | .obj kvs =>
      match mapGet kvs "default" with
      | some d =>
          .obj (sanitizeEntries kvs ++
            [("default", ensureDefaultValueMatchesType d (mapGet (sanitizeEntries kvs) "type"))])
      | none => .obj (sanitizeEntries kvs)
  | .arr xs => .obj (sanitizeElems 0 xs)
  | _ => .obj [("type", .str "object")]

/-- First-pass loop of `sanitizeSchema` over the object entries. -/
def sanitizeEntries : List (String × Json) → List (String × Json)
  | [] => []
  | (k, v) :: rest =>
      if startsDollar k || k == "default" then sanitizeEntries rest
      else if k == "required" then
        (k, strsToJson (ensureRequiredIsArray (some v))) :: sanitizeEntries rest
      else if k == "enum" then
        (k, .arr (ensureEnumIsArray (some v))) :: sanitizeEntries rest
      else
        match v with
        | .str s =>
            (k, .str (if k == "description" then truncateDescription s else s)) ::
              sanitizeEntries rest
        | .arr xs => (k, sanitizeSchema (.arr xs)) :: sanitizeEntries rest
        | .obj o => (k, sanitizeSchema (.obj o)) :: sanitizeEntries rest
        | w => (k, w) :: sanitizeEntries rest

/-- The entries loop of `sanitizeSchema` on a JS array: index keys are
decimal strings, which never hit the key-specific branches, so each
object-valued element is sanitized recursively and all others copied. -/
def sanitizeElems : Nat → List Json → List (String × Json)
  | _, [] => []
  | i, x :: xs =>
      match x with
      | .arr a => (natKey i, sanitizeSchema (.arr a)) :: sanitizeElems (i + 1) xs
      | .obj o => (natKey i, sanitizeSchema (.obj o)) :: sanitizeElems (i + 1) xs
      | w => (natKey i, w) :: sanitizeElems (i + 1) xs

end

/-! ### Unfolding (step) lemmas for the sanitizer -/

theorem sanitizeEntries_nil : sanitizeEntries [] = [] := by
  rw [sanitizeEntries.eq_def]

theorem sanitizeEntries_cons_drop {k : String} (v : Json) (tl : List (String × Json))
    (h1 : (startsDollar k || k == "default") = true) :
    sanitizeEntries ((k, v) :: tl) = sanitizeEntries tl := by
  unfold sanitizeEntries
  rw [if_pos h1]
  exact (sanitizeEntries.eq_def tl)

theorem sanitizeEntries_cons_required {k : String} (v : Json) (tl : List (String × Json))
    (h1 : (startsDollar k || k == "default") = false)
    (h2 : (k == "required") = true) :
    sanitizeEntries ((k, v) :: tl) =
      (k, strsToJson (ensureRequiredIsArray (some v))) :: sanitizeEntries tl := by
  unfold sanitizeEntries
  rw [if_neg (by simp [h1]), if_pos h2]
  rw [← sanitizeEntries.eq_def]

theorem sanitizeEntries_cons_enum {k : String} (v : Json) (tl : List (String × Json))
    (h1 : (startsDollar k || k == "default") = false)
    (h2 : (k == "required") = false) (h3 : (k == "enum") = true) :
    sanitizeEntries ((k, v) :: tl) =
      (k, .arr (ensureEnumIsArray (some v))) :: sanitizeEntries tl := by
  unfold sanitizeEntries
  rw [if_neg (by simp [h1]), if_neg (by simp [h2]), if_pos h3]
  rw [← sanitizeEntries.eq_def]

theorem sanitizeEntries_cons_str {k : String} (s : String) (tl : List (String × Json))
    (h1 : (startsDollar k || k == "default") = false)
    (h2 : (k == "required") = false) (h3 : (k == "enum") = false) :
    sanitizeEntries ((k, .str s) :: tl) =
      (k, .str (if k == "description" then truncateDescription s else s)) ::
        sanitizeEntries tl := by
  unfold sanitizeEntries
  rw [if_neg (by simp [h1]), if_neg (by simp [h2]), if_neg (by simp [h3])]
  rw [← sanitizeEntries.eq_def]

theorem sanitizeEntries_cons_arr {k : String} (xs : List Json) (tl : List (String × Json))
    (h1 : (startsDollar k || k == "default") = false)
    (h2 : (k == "required") = false) (h3 : (k == "enum") = false) :
    sanitizeEntries ((k, .arr xs) :: tl) =
      (k, sanitizeSchema (.arr xs)) :: sanitizeEntries tl := by
  unfold sanitizeEntries
  rw [if_neg (by simp [h1]), if_neg (by simp [h2]), if_neg (by simp [h3])]
  rw [← sanitizeEntries.eq_def]

theorem sanitizeEntries_cons_obj {k : String} (o : List (String × Json))
    (tl : List (String × Json))
    (h1 : (startsDollar k || k == "default") = false)
    (h2 : (k == "required") = false) (h3 : (k == "enum") = false) :
    sanitizeEntries ((k, .obj o) :: tl) =
      (k, sanitizeSchema (.obj o)) :: sanitizeEntries tl := by
  unfold sanitizeEntries
  rw [if_neg (by simp [h1]), if_neg (by simp [h2]), if_neg (by simp [h3])]
  rw [← sanitizeEntries.eq_def]

theorem sanitizeEntries_cons_null {k : String} (tl : List (String × Json))
    (h1 : (startsDollar k || k == "default") = false)
    (h2 : (k == "required") = false) (h3 : (k == "enum") = false) :
    sanitizeEntries ((k, .null) :: tl) = (k, .null) :: sanitizeEntries tl := by
  unfold sanitizeEntries
  rw [if_neg (by simp [h1]), if_neg (by simp [h2]), if_neg (by simp [h3])]
  rw [← sanitizeEntries.eq_def]

theorem sanitizeEntries_cons_bool {k : String} (b : Bool) (tl : List (String × Json))
    (h1 : (startsDollar k || k == "default") = false)
    (h2 : (k == "required") = false) (h3 : (k == "enum") = false) :
    sanitizeEntries ((k, .bool b) :: tl) = (k, .bool b) :: sanitizeEntries tl := by
  unfold sanitizeEntries
  rw [if_neg (by simp [h1]), if_neg (by simp [h2]), if_neg (by simp [h3])]
  rw [← sanitizeEntries.eq_def]

theorem sanitizeEntries_cons_num {k : String} (n : JsNum) (tl : List (String × Json))
    (h1 : (startsDollar k || k == "default") = false)
    (h2 : (k == "required") = false) (h3 : (k == "enum") = false) :
    sanitizeEntries ((k, .num n) :: tl) = (k, .num n) :: sanitizeEntries tl := by
  unfold sanitizeEntries
  rw [if_neg (by simp [h1]), if_neg (by simp [h2]), if_neg (by simp [h3])]
  rw [← sanitizeEntries.eq_def]

theorem sanitizeEntries_cons_keep {k : String} (v : Json) (tl : List (String × Json))
    (h1 : (startsDollar k || k == "default") = false) :
    ∃ w, sanitizeEntries ((k, v) :: tl) = (k, w) :: sanitizeEntries tl := by
  by_cases h2 : (k == "required") = true
  · exact ⟨_, sanitizeEntries_cons_required v tl h1 h2⟩
  · have h2' : (k == "required") = false := by simpa using h2
    by_cases h3 : (k == "enum") = true
    · exact ⟨_, sanitizeEntries_cons_enum v tl h1 h2' h3⟩
    · have h3' : (k == "enum") = false := by simpa using h3
      cases v with
      | null => exact ⟨_, sanitizeEntries_cons_null tl h1 h2' h3'⟩
      | bool b => exact ⟨_, sanitizeEntries_cons_bool b tl h1 h2' h3'⟩
      | num n => exact ⟨_, sanitizeEntries_cons_num n tl h1 h2' h3'⟩
      | str s => exact ⟨_, sanitizeEntries_cons_str s tl h1 h2' h3'⟩
      | arr xs => exact ⟨_, sanitizeEntries_cons_arr xs tl h1 h2' h3'⟩
      | obj o => exact ⟨_, sanitizeEntries_cons_obj o tl h1 h2' h3'⟩

theorem sanitizeSchema_obj_none {kvs : List (String × Json)}
    (h : mapGet kvs "default" = none) :
    sanitizeSchema (.obj kvs) = .obj (sanitizeEntries kvs) := by
  unfold sanitizeSchema
  rw [h]

theorem sanitizeSchema_obj_some {kvs : List (String × Json)} {d : Json}
    (h : mapGet kvs "default" = some d) :
    sanitizeSchema (.obj kvs) =
      .obj (sanitizeEntries kvs ++
        [("default",
          ensureDefaultValueMatchesType d (mapGet (sanitizeEntries kvs) "type"))]) := by
  unfold sanitizeSchema
  rw [h]

theorem sanitizeSchema_arr (xs : List Json) :
    sanitizeSchema (.arr xs) = .obj (sanitizeElems 0 xs) := by
  unfold sanitizeSchema
  rfl

theorem sanitizeSchema_not_obj {j : Json} (h : isJsObject j = false) :
    sanitizeSchema j = .obj [("type", .str "object")] := by
  cases j
  case arr => simp [isJsObject] at h
  case obj => simp [isJsObject] at h
  all_goals (unfold sanitizeSchema; rfl)

theorem sanitizeElems_nil (i : Nat) : sanitizeElems i [] = [] := by
  rw [sanitizeElems.eq_def]

theorem sanitizeElems_cons_arr (i : Nat) (a : List Json) (xs : List Json) :
    sanitizeElems i (.arr a :: xs) =
      (natKey i, sanitizeSchema (.arr a)) :: sanitizeElems (i + 1) xs := by
  unfold sanitizeElems
  rw [← sanitizeElems.eq_def]

theorem sanitizeElems_cons_obj (i : Nat) (o : List (String × Json)) (xs : List Json) :
    sanitizeElems i (.obj o :: xs) =
      (natKey i, sanitizeSchema (.obj o)) :: sanitizeElems (i + 1) xs := by
  unfold sanitizeElems
  rw [← sanitizeElems.eq_def]

theorem sanitizeElems_cons_null (i : Nat) (xs : List Json) :
    sanitizeElems i (.null :: xs) = (natKey i, .null) :: sanitizeElems (i + 1) xs := by
  unfold sanitizeElems
  rw [← sanitizeElems.eq_def]

theorem sanitizeElems_cons_bool (i : Nat) (b : Bool) (xs : List Json) :
    sanitizeElems i (.bool b :: xs) = (natKey i, .bool b) :: sanitizeElems (i + 1) xs := by
  unfold sanitizeElems
  rw [← sanitizeElems.eq_def]

theorem sanitizeElems_cons_num (i : Nat) (n : JsNum) (xs : List Json) :
    sanitizeElems i (.num n :: xs) = (natKey i, .num n) :: sanitizeElems (i + 1) xs := by
  unfold sanitizeElems
  rw [← sanitizeElems.eq_def]

theorem sanitizeElems_cons_str (i : Nat) (s : String) (xs : List Json) :
    sanitizeElems i (.str s :: xs) = (natKey i, .str s) :: sanitizeElems (i + 1) xs := by
  unfold sanitizeElems
  rw [← sanitizeElems.eq_def]

/-! ### Facts about the sanitizer pieces -/

theorem truncateDescription_eq_self {s : String} (h : s.length ≤ 300) :
    truncateDescription s = s := by
  by_cases he : s = ""
  · subst he; rfl
  · simp [truncateDescription, he, h]

theorem truncateDescription_length_of_gt {s : String} (h : 300 < s.length) :
    (truncateDescription s).length = 300 := by
  have he : s ≠ "" := by
    intro hs; subst hs; simp [string_length_eq] at h
  have hlen : ¬s.length ≤ 300 := by omega
  simp only [truncateDescription, he, if_false, hlen, if_neg, ite_false]
  rw [string_length_eq, string_append_data, List.length_append, strTake_data,
    List.length_take]
  have hs : 300 < s.data.length := h
  have h3 : ("...").data.length = 3 := rfl
  rw [h3]
  omega

theorem truncateDescription_idem (s : String) :
    truncateDescription (truncateDescription s) = truncateDescription s := by
  by_cases h : s.length ≤ 300
  · rw [truncateDescription_eq_self h, truncateDescription_eq_self h]
  · exact truncateDescription_eq_self (by rw [truncateDescription_length_of_gt (by omega)])

theorem ensureRequired_strsToJson (l : List String) :
    ensureRequiredIsArray (some (strsToJson l)) = l := by
  induction l with
  | nil => rfl
  | cons hd tl ih =>
      simp only [strsToJson, List.map_cons, ensureRequiredIsArray, List.filterMap_cons]
      simp only [strsToJson, ensureRequiredIsArray] at ih
      rw [ih]

theorem ensureEnum_arr (xs : List Json) : ensureEnumIsArray (some (.arr xs)) = xs := rfl

theorem jsToBoolean_bool (b : Bool) : jsToBoolean (.bool b) = b := by
  simp [jsToBoolean, jsFalsy]

theorem ensureDefault_idem (d : Json) (ty : Option Json) :
    ensureDefaultValueMatchesType (ensureDefaultValueMatchesType d ty) ty =
      ensureDefaultValueMatchesType d ty := by
  rcases ty with _ | v
  · rfl
  rcases v with _ | b | n | t | xs | kvs
  case str =>
    by_cases h1 : t = "string"
    · simp [ensureDefaultValueMatchesType, h1, jsToString]
    by_cases h2 : t = "number" ∨ t = "integer"
    · simp [ensureDefaultValueMatchesType, h1, h2, jsToNumber]
    by_cases h3 : t = "boolean"
    · simp [ensureDefaultValueMatchesType, h1, h2, h3, jsToBoolean_bool]
    by_cases h4 : t = "array"
    · cases d <;> simp [ensureDefaultValueMatchesType, h1, h2, h3, h4]
    by_cases h5 : t = "object"
    · cases d <;> simp [ensureDefaultValueMatchesType, h1, h2, h3, h4, h5, isTypeofObject]
    · simp [ensureDefaultValueMatchesType, h1, h2, h3, h4, h5]
  all_goals rfl

theorem sanitizeEntries_append (as bs : List (String × Json)) :
    sanitizeEntries (as ++ bs) = sanitizeEntries as ++ sanitizeEntries bs := by
  induction as with
  | nil => simp [sanitizeEntries]
  | cons hd tl ih =>
      obtain ⟨k, v⟩ := hd
      by_cases h1 : (startsDollar k || k == "default") = true <;>
        by_cases h2 : (k == "required") = true <;>
          by_cases h3 : (k == "enum") = true <;>
            cases v <;> simp [sanitizeEntries, h1, h2, h3, ih]

theorem sanitizeEntries_default_entry (dv : Json) :
    sanitizeEntries [("default", dv)] = [] := by
  simp [sanitizeEntries]

theorem sanitizeEntries_keys (kvs : List (String × Json)) :
    ∀ p ∈ sanitizeEntries kvs, startsDollar p.1 = false ∧ p.1 ≠ "default" := by
  induction kvs with
  | nil => simp [sanitizeEntries]
  | cons hd tl ih =>
      obtain ⟨k, v⟩ := hd
      intro p hp
      by_cases h1 : (startsDollar k || k == "default") = true
      · rw [sanitizeEntries_cons_drop v tl h1] at hp
        exact ih p hp
      · have h1' : (startsDollar k || k == "default") = false := by
          simpa using h1
        have hk : startsDollar k = false ∧ k ≠ "default" := by
          simpa using h1
        obtain ⟨w, hw⟩ := sanitizeEntries_cons_keep v tl h1'
        rw [hw] at hp
        rcases List.mem_cons.mp hp with hp | hp
        · subst hp; exact hk
        · exact ih p hp

theorem mapGet_sanitizeEntries_default (kvs : List (String × Json)) :
    mapGet (sanitizeEntries kvs) "default" = none :=
  mapGet_eq_none_of_keys fun p hp => (sanitizeEntries_keys kvs p hp).2

theorem sanitizeElems_keys (xs : List Json) :
    ∀ i, ∀ p ∈ sanitizeElems i xs, ∃ j, p.1 = natKey j := by
  induction xs with
  | nil => intro i p hp; simp [sanitizeElems] at hp
  | cons x tl ih =>
      intro i p hp
      cases x <;> simp only [sanitizeElems, List.mem_cons] at hp <;>
        rcases hp with hp | hp <;>
          first
            | (subst hp; exact ⟨i, rfl⟩)
            | exact ih (i + 1) p hp

theorem mapGet_sanitizeElems_default (i : Nat) (xs : List Json) :
    mapGet (sanitizeElems i xs) "default" = none :=
  mapGet_eq_none_of_keys fun p hp => by
    obtain ⟨j, hj⟩ := sanitizeElems_keys xs i p hp
    rw [hj]; exact natKey_ne_default j

theorem sanitizeSchema_shape (j : Json) : ∃ c, sanitizeSchema j = .obj c := by
  cases j with
  | obj kvs =>
      cases hdef : mapGet kvs "default" with
      | none => exact ⟨_, sanitizeSchema_obj_none hdef⟩
      | some d => exact ⟨_, sanitizeSchema_obj_some hdef⟩
  | arr xs => exact ⟨_, sanitizeSchema_arr xs⟩
  | null => exact ⟨_, sanitizeSchema_not_obj rfl⟩
  | bool b => exact ⟨_, sanitizeSchema_not_obj rfl⟩
  | num n => exact ⟨_, sanitizeSchema_not_obj rfl⟩
  | str s => exact ⟨_, sanitizeSchema_not_obj rfl⟩

mutual

theorem sanitizeSchema_idem : ∀ j : Json,
    sanitizeSchema (sanitizeSchema j) = sanitizeSchema j
  | .null => by rw [@sanitizeSchema_not_obj .null rfl]; decide
  | .bool b => by rw [@sanitizeSchema_not_obj (.bool b) rfl]; decide
  | .num n => by rw [@sanitizeSchema_not_obj (.num n) rfl]; decide
  | .str s => by rw [@sanitizeSchema_not_obj (.str s) rfl]; decide
  | .obj kvs => by
      cases hdef : mapGet kvs "default" with
      | none =>
          rw [sanitizeSchema_obj_none hdef,
            sanitizeSchema_obj_none (mapGet_sanitizeEntries_default kvs),
            sanitizeEntries_idem kvs]
      | some d =>
          rw [sanitizeSchema_obj_some hdef]
          have hget : mapGet (sanitizeEntries kvs ++
              [("default",
                ensureDefaultValueMatchesType d (mapGet (sanitizeEntries kvs) "type"))])
              "default" =
              some (ensureDefaultValueMatchesType d
                (mapGet (sanitizeEntries kvs) "type")) := by
            rw [mapGet_append_of_none (mapGet_sanitizeEntries_default kvs)]
            simp [mapGet]
          rw [sanitizeSchema_obj_some hget]
          rw [sanitizeEntries_append, sanitizeEntries_default_entry, List.append_nil,
            sanitizeEntries_idem kvs, ensureDefault_idem]
  | .arr xs => by
      rw [sanitizeSchema_arr,
        sanitizeSchema_obj_none (mapGet_sanitizeElems_default 0 xs),
        sanitizeElems_fixed 0 xs]

theorem sanitizeEntries_idem : ∀ kvs : List (String × Json),
    sanitizeEntries (sanitizeEntries kvs) = sanitizeEntries kvs
  | [] => by rw [sanitizeEntries_nil, sanitizeEntries_nil]
  | (k, v) :: tl => by
      by_cases h1 : (startsDollar k || k == "default") = true
      · rw [sanitizeEntries_cons_drop v tl h1]
        exact sanitizeEntries_idem tl
      · have h1' : (startsDollar k || k == "default") = false := by simpa using h1
        by_cases h2 : (k == "required") = true
        · rw [sanitizeEntries_cons_required v tl h1' h2,
            sanitizeEntries_cons_required _ _ h1' h2,
            ensureRequired_strsToJson, sanitizeEntries_idem tl]
        · have h2' : (k == "required") = false := by simpa using h2
          by_cases h3 : (k == "enum") = true
          · rw [sanitizeEntries_cons_enum v tl h1' h2' h3,
              sanitizeEntries_cons_enum _ _ h1' h2' h3,
              ensureEnum_arr, sanitizeEntries_idem tl]
          · have h3' : (k == "enum") = false := by simpa using h3
            cases v with
            | null =>
                rw [sanitizeEntries_cons_null tl h1' h2' h3',
                  sanitizeEntries_cons_null _ h1' h2' h3', sanitizeEntries_idem tl]
            | bool b =>
                rw [sanitizeEntries_cons_bool b tl h1' h2' h3',
                  sanitizeEntries_cons_bool _ _ h1' h2' h3', sanitizeEntries_idem tl]
            | num n =>
                rw [sanitizeEntries_cons_num n tl h1' h2' h3',
                  sanitizeEntries_cons_num _ _ h1' h2' h3', sanitizeEntries_idem tl]
            | str s =>
                rw [sanitizeEntries_cons_str s tl h1' h2' h3',
                  sanitizeEntries_cons_str _ _ h1' h2' h3']
                by_cases h4 : (k == "description") = true
                · simp only [h4, if_true, truncateDescription_idem]
                  rw [sanitizeEntries_idem tl]
                · have h4' : (k == "description") = false := by simpa using h4
                  simp only [h4', Bool.false_eq_true, if_false]
                  rw [sanitizeEntries_idem tl]
            | arr a =>
                obtain ⟨c, hc⟩ := sanitizeSchema_shape (.arr a)
                rw [sanitizeEntries_cons_arr a tl h1' h2' h3', hc,
                  sanitizeEntries_cons_obj c _ h1' h2' h3', ← hc,
                  sanitizeSchema_idem (.arr a), sanitizeEntries_idem tl]
            | obj o =>
                obtain ⟨c, hc⟩ := sanitizeSchema_shape (.obj o)
                rw [sanitizeEntries_cons_obj o tl h1' h2' h3', hc,
                  sanitizeEntries_cons_obj c _ h1' h2' h3', ← hc,
                  sanitizeSchema_idem (.obj o), sanitizeEntries_idem tl]

theorem sanitizeElems_fixed : ∀ (i : Nat) (xs : List Json),
    sanitizeEntries (sanitizeElems i xs) = sanitizeElems i xs
  | i, [] => by rw [sanitizeElems_nil, sanitizeEntries_nil]
  | i, x :: xs => by
      have hk1 : (startsDollar (natKey i) || natKey i == "default") = false := by
        rw [startsDollar_natKey]
        simp [natKey_ne_default i]
      have hk2 : (natKey i == "required") = false := by simp [natKey_ne_required i]
      have hk3 : (natKey i == "enum") = false := by simp [natKey_ne_enum i]
      have hk4 : (natKey i == "description") = false := by simp [natKey_ne_description i]
      cases x with
      | null =>
          rw [sanitizeElems_cons_null, sanitizeEntries_cons_null _ hk1 hk2 hk3,
            sanitizeElems_fixed (i + 1) xs]
      | bool b =>
          rw [sanitizeElems_cons_bool, sanitizeEntries_cons_bool _ _ hk1 hk2 hk3,
            sanitizeElems_fixed (i + 1) xs]
      | num n =>
          rw [sanitizeElems_cons_num, sanitizeEntries_cons_num _ _ hk1 hk2 hk3,
            sanitizeElems_fixed (i + 1) xs]
      | str s =>
          rw [sanitizeElems_cons_str, sanitizeEntries_cons_str _ _ hk1 hk2 hk3]
          simp only [hk4, Bool.false_eq_true, if_false]
          rw [sanitizeElems_fixed (i + 1) xs]
      | arr a =>
          obtain ⟨c, hc⟩ := sanitizeSchema_shape (.arr a)
          rw [sanitizeElems_cons_arr, hc, sanitizeEntries_cons_obj c _ hk1 hk2 hk3, ← hc,
            sanitizeSchema_idem (.arr a), sanitizeElems_fixed (i + 1) xs]
      | obj o =>
          obtain ⟨c, hc⟩ := sanitizeSchema_shape (.obj o)
          rw [sanitizeElems_cons_obj, hc, sanitizeEntries_cons_obj c _ hk1 hk2 hk3, ← hc,
            sanitizeSchema_idem (.obj o), sanitizeElems_fixed (i + 1) xs]

end

/-! ### Data model (`src/shared/types.ts`) -/

/-- Connection state of a registered client. -/
inductive ConnStatus where
  | connected
  | disconnected
deriving DecidableEq, Repr

/-- `MCPToolDefinition` from `types.ts`. An absent `returns` is modelled as
`Json.null` (the generator only tests it for falsiness). -/
structure MCPToolDefinition where
  name : String
  description : String
  parameters : Json
  returns : Json
deriving DecidableEq, Repr

/-- `ClientRegistration` from `types.ts`. The `lastSeen` wall-clock
timestamp is omitted: no claim mentions it and no control flow below
depends on it. -/
structure ClientRegistration where
  clientId : String
  bearerToken : String
  tools : List MCPToolDefinition
  connectionStatus : ConnStatus
  connectionId : Option String
deriving DecidableEq, Repr

/-- `APISpace` from `types.ts`. -/
structure APISpace where
  name : String
  description : Option String
  bearerToken : String
  allowedClientTokens : List String
deriving DecidableEq, Repr

/-- JS property read on a value that is expected to be an object. -/
def objGet (j : Json) (key : String) : Option Json :=
  match j with
  | .obj kvs => mapGet kvs key
  | _ => none

/-- JS property write on a value that is expected to be an object. -/
def objSet (j : Json) (key : String) (v : Json) : Json :=
  match j with
  | .obj kvs => .obj (mapSet kvs key v)
  | _ => j

/-- JS `Object.keys`. -/
def jsKeys : Json → List String
  | .obj kvs => kvs.map Prod.fst
  | .arr xs => (List.range xs.length).map natKey
  | .str s => (List.range s.length).map natKey
  | _ => []

/-! ### Document generation (`src/server/openapi-generator.ts`, continued) -/

/-- `DefaultOpenApiGenerator.generateRequestBody`. -/
def generateRequestBody (parameters : Json) : Json :=
  if jsFalsy parameters || jsKeys parameters == [] then .null
  else
    let sanitized := sanitizeSchema parameters
    let props :=
      match objGet sanitized "properties" with
      | some p => if jsFalsy p then .obj [] else p
      | none => .obj []
    .obj [("type", .str "object"), ("properties", props),
      ("required", strsToJson (ensureRequiredIsArray (objGet sanitized "required")))]

/-- `DefaultOpenApiGenerator.generateResponses`. -/
def generateResponses (returns : Json) : Json :=
  if jsFalsy returns then
    .obj [("type", .str "object"),
      ("properties", .obj [("result",
        .obj [("type", .str "object"),
          ("description", .str (truncateDescription "Generic result object"))])])]
  else
    let sanitized := sanitizeSchema returns
    let sanitized' :=
      match objGet sanitized "required" with
      | some r =>
          if jsFalsy r then sanitized
          else objSet sanitized "required" (strsToJson (ensureRequiredIsArray (some r)))
      | none => sanitized
    .obj [("type", .str "object"), ("properties", .obj [("result", sanitized')]),
      ("required", strsToJson ["result"])]

/-- Error-schema reference used by the non-200 responses. -/
def errorRefSchema : Json := .obj [("$ref", .str "#/components/schemas/Error")]

/-- One non-200 response object of `generatePathForTool`. -/
def errorResponse (description : String) : Json :=
  .obj [("description", .str description),
    ("content", .obj [("application/json", .obj [("schema", errorRefSchema)])])]

/-- `DefaultOpenApiGenerator.generatePathForTool`. Note that the source
ignores `clientId` entirely: the emitted operation depends only on the
tool definition. -/
def generatePathForTool (clientId : String) (tool : MCPToolDefinition) : Json :=
  .obj [("post", .obj [
    ("description", .str (truncateDescription tool.description)),
    ("operationId", .str tool.name),
    ("x-openai-isConsequential", .bool false),
    ("requestBody", .obj [("required", .bool true),
      ("content", .obj [("application/json",
        .obj [("schema", generateRequestBody tool.parameters)])])]),
    ("responses", .obj [
      ("200", .obj [("description", .str "Successful operation"),
        ("content", .obj [("application/json",
          .obj [("schema", generateResponses tool.returns)])])]),
      ("400", errorResponse "Invalid request"),
      ("404", errorResponse "Tool not found"),
      ("500", errorResponse "Server error")])])]

/-- `DefaultOpenApiGenerator.filterClientsForApiSpace`: keep only
`connected` clients, then (when an API Space is given) only those whose
bearer token is in the space's `allowedClientTokens`. -/
def filterClientsForApiSpace (clients : List ClientRegistration)
    (apiSpace : Option APISpace) : List ClientRegistration :=
  let connectedOnly := clients.filter fun c => c.connectionStatus == .connected
  match apiSpace with
  | some space =>
      connectedOnly.filter fun c => space.allowedClientTokens.contains c.bearerToken
  | none => connectedOnly

/-- Path key for a tool. -/
def toolPathKey (name : String) : String := "/api/tools/" ++ name

/-- `DefaultOpenApiGenerator.generatePaths`: for each client in order, for
each of its tools in order, assign `paths['/api/tools/' + name]`; a later
assignment to the same name overwrites the earlier operation object. -/
def generatePaths (clients : List ClientRegistration) : List (String × Json) :=
  clients.foldl
    (fun paths client =>
      client.tools.foldl
        (fun paths tool =>
          mapSet paths (toolPathKey tool.name) (generatePathForTool client.clientId tool))
        paths)
    []

/-- `DefaultOpenApiGenerator.generateDescription`. -/
def generateDescription (apiSpace : Option APISpace) : String :=
  let base := "RESTifyMCP provides access to tools registered by connected clients."
  match apiSpace with
  | none => base
  | some space =>
      let withDesc :=
        match space.description with
        | some d => if d = "" then base else truncateDescription d ++ "\n\n" ++ base
        | none => base
      withDesc ++ "\n\nThis API Space '" ++ space.name ++
        "' provides access to tools from " ++
        toString space.allowedClientTokens.length ++ " allowed clients."

/-- Paths block of the description document `generateSpec` produces for a
tenant: the clients are first filtered by connection status and space
membership, then the paths map is generated. -/
def generateSpecPaths (clients : List ClientRegistration) (apiSpace : Option APISpace) :
    List (String × Json) :=
  generatePaths (filterClientsForApiSpace clients apiSpace)

/-! ### Characterizing `generatePaths` (last assignment wins) -/

/-- Last element of a list satisfying a predicate (later elements take
precedence), mirroring repeated overwriting assignments in a loop. -/
def lastMatch {α : Type} (p : α → Bool) : List α → Option α
  | [] => none
  | x :: l =>
      match lastMatch p l with
      | some y => some y
      | none => if p x then some x else none

/-- The tool of `tools` that ends up owning `key` after the inner
assignment loop, if any. -/
def lastToolForKey (key : String) (tools : List MCPToolDefinition) :
    Option MCPToolDefinition :=
  lastMatch (fun t => toolPathKey t.name == key) tools

/-- The operation object that ends up stored at `key` after the client
loop of `generatePaths`, if any. -/
def lastPathForKey (key : String) : List ClientRegistration → Option Json
  | [] => none
  | c :: rest =>
      match lastPathForKey key rest with
      | some v => some v
      | none => (lastToolForKey key c.tools).map fun t => generatePathForTool c.clientId t

theorem mapGet_mapSet {α : Type} (m : List (String × α)) (k key : String) (v : α) :
    mapGet (mapSet m k v) key = if k = key then some v else mapGet m key := by
  induction m with
  | nil => by_cases h : k = key <;> simp [mapSet, mapGet, h]
  | cons hd tl ih =>
      obtain ⟨k', w⟩ := hd
      by_cases h1 : k' = k
      · subst h1
        by_cases h2 : k' = key <;> simp [mapSet, mapGet, h2]
      · by_cases h2 : k' = key
        · subst h2
          have : k ≠ k' := fun h => h1 h.symm
          simp [mapSet, mapGet, h1, this]
        · simp [mapSet, mapGet, h1, h2, ih]

theorem toolsFold_get (cid : String) (key : String) :
    ∀ (tools : List MCPToolDefinition) (acc : List (String × Json)),
      mapGet
        (tools.foldl
          (fun paths tool => mapSet paths (toolPathKey tool.name) (generatePathForTool cid tool))
          acc) key =
      match lastToolForKey key tools with
      | some t => some (generatePathForTool cid t)
      | none => mapGet acc key := by
  intro tools
  induction tools with
  | nil => intro acc; simp [lastToolForKey, lastMatch]
  | cons t tl ih =>
      intro acc
      rw [List.foldl_cons, ih]
      simp only [lastToolForKey, lastMatch]
      cases hlast : lastMatch (fun t => toolPathKey t.name == key) tl with
      | some y => simp [lastToolForKey, hlast]
      | none =>
          simp only [lastToolForKey, hlast]
          rw [mapGet_mapSet]
          by_cases hk : toolPathKey t.name = key
          · simp [hk]
          · simp [hk]

theorem generatePaths_fold_get (key : String) :
    ∀ (clients : List ClientRegistration) (acc : List (String × Json)),
      mapGet
        (clients.foldl
          (fun paths client =>
            client.tools.foldl
              (fun paths tool =>
                mapSet paths (toolPathKey tool.name) (generatePathForTool client.clientId tool))
              paths)
          acc) key =
      match lastPathForKey key clients with
      | some v => some v
      | none => mapGet acc key := by
  intro clients
  induction clients with
  | nil => intro acc; simp [lastPathForKey]
  | cons c rest ih =>
      intro acc
      rw [List.foldl_cons, ih]
      simp only [lastPathForKey]
      cases hlast : lastPathForKey key rest with
      | some v => simp
      | none =>
          simp only []
          rw [toolsFold_get]
          cases hTool : lastToolForKey key c.tools <;> simp

theorem generatePaths_get (clients : List ClientRegistration) (key : String) :
    mapGet (generatePaths clients) key = lastPathForKey key clients := by
  unfold generatePaths
  rw [generatePaths_fold_get]
  cases h : lastPathForKey key clients <;> simp [mapGet]

/-! ### Key uniqueness of the generated paths map -/

theorem mapSet_keys_subset {α : Type} (m : List (String × α)) (k : String) (v : α) :
    ∀ p ∈ mapSet m k v, p.1 ∈ m.map Prod.fst ∨ p.1 = k := by
  induction m with
  | nil => intro p hp; simp [mapSet] at hp; simp [hp]
  | cons hd tl ih =>
      obtain ⟨k', w⟩ := hd
      intro p hp
      by_cases h1 : k' = k
      · subst h1
        simp only [mapSet, if_pos rfl] at hp
        rcases List.mem_cons.mp hp with hp | hp
        · subst hp; right; rfl
        · left
          simp only [List.map_cons, List.mem_cons]
          exact Or.inr (List.mem_map_of_mem Prod.fst hp)
      · simp only [mapSet, if_neg h1] at hp
        rcases List.mem_cons.mp hp with hp | hp
        · subst hp; left; simp
        · rcases ih p hp with h | h
          · left; simp only [List.map_cons, List.mem_cons]; exact Or.inr h
          · right; exact h

theorem mapSet_keys_nodup {α : Type} (m : List (String × α)) (k : String) (v : α)
    (h : (m.map Prod.fst).Nodup) : ((mapSet m k v).map Prod.fst).Nodup := by
  induction m with
  | nil => simp [mapSet]
  | cons hd tl ih =>
      obtain ⟨k', w⟩ := hd
      simp only [List.map_cons, List.nodup_cons] at h
      by_cases h1 : k' = k
      · subst h1
        have hset : mapSet ((k', w) :: tl) k' v = (k', v) :: tl := by
          simp [mapSet]
        rw [hset]
        simp only [List.map_cons, List.nodup_cons]
        exact ⟨h.1, h.2⟩
      · simp only [mapSet, if_neg h1, List.map_cons, List.nodup_cons]
        refine ⟨?_, ih h.2⟩
        intro hmem
        rcases List.mem_map.mp hmem with ⟨p, hp, hpk⟩
        rcases mapSet_keys_subset tl k v p hp with hin | hk
        · exact h.1 (hpk ▸ hin)
        · exact h1 (hpk ▸ hk ▸ rfl)

theorem generatePaths_keys_nodup (clients : List ClientRegistration) :
    ((generatePaths clients).map Prod.fst).Nodup := by
  unfold generatePaths
  have main : ∀ (cs : List ClientRegistration) (acc : List (String × Json)),
      (acc.map Prod.fst).Nodup →
      ((cs.foldl
        (fun paths client =>
          client.tools.foldl
            (fun paths tool =>
              mapSet paths (toolPathKey tool.name) (generatePathForTool client.clientId tool))
            paths)
        acc).map Prod.fst).Nodup := by
    intro cs
    induction cs with
    | nil => intro acc h; simpa using h
    | cons c rest ih =>
        intro acc h
        rw [List.foldl_cons]
        apply ih
        have inner : ∀ (ts : List MCPToolDefinition) (acc₂ : List (String × Json)),
            (acc₂.map Prod.fst).Nodup →
            ((ts.foldl
              (fun paths tool =>
                mapSet paths (toolPathKey tool.name) (generatePathForTool c.clientId tool))
              acc₂).map Prod.fst).Nodup := by
          intro ts
          induction ts with
          | nil => intro acc₂ h₂; simpa using h₂
          | cons t ttl ih₂ =>
              intro acc₂ h₂
              rw [List.foldl_cons]
              exact ih₂ _ (mapSet_keys_nodup _ _ _ h₂)
        exact inner c.tools acc h
  exact main clients [] (by simp)

theorem string_append_left_cancel {a b c : String} (h : a ++ b = a ++ c) : b = c := by
  have hd : (a ++ b).data = (a ++ c).data := by rw [h]
  rw [string_append_data, string_append_data] at hd
  have hbc : b.data = c.data := List.append_cancel_left hd
  cases b with
  | mk db =>
      cases c with
      | mk dc =>
          have hd2 : db = dc := hbc
          rw [hd2]

theorem lastMatch_congr {α : Type} {p q : α → Bool} (h : ∀ x, p x = q x) :
    ∀ l : List α, lastMatch p l = lastMatch q l := by
  intro l
  induction l with
  | nil => rfl
  | cons x tl ih => simp [lastMatch, ih, h x]

/-- Ownership of the path for tool name `name` is decided purely by tool
name equality: the path-key append is injective in the name. -/
theorem lastToolForKey_name (name : String) (tools : List MCPToolDefinition) :
    lastToolForKey (toolPathKey name) tools = lastMatch (fun t => t.name == name) tools := by
  unfold lastToolForKey
  apply lastMatch_congr
  intro t
  by_cases h : t.name = name
  · simp [h]
  · have : toolPathKey t.name ≠ toolPathKey name := by
      intro he
      exact h (string_append_left_cancel he)
    simp [h, this]

/-- Operation object for tool name `name` contributed by the clients, with
later registrations and later tools taking precedence (the value that the
mutating assignment loop leaves at the path key). -/
def lastProviderByName (name : String) : List ClientRegistration → Option Json
  | [] => none
  | c :: rest =>
      match lastProviderByName name rest with
      | some v => some v
      | none =>
          (lastMatch (fun t => t.name == name) c.tools).map fun t =>
            generatePathForTool c.clientId t

theorem lastPathForKey_byName (name : String) :
    ∀ clients : List ClientRegistration,
      lastPathForKey (toolPathKey name) clients = lastProviderByName name clients := by
  intro clients
  induction clients with
  | nil => rfl
  | cons c rest ih =>
      simp only [lastPathForKey, lastProviderByName, ih, lastToolForKey_name]

/-! ### Claim theorems: description generator -/

/-- C9: schema sanitization is idempotent: for every input schema value
`s`, `sanitize (sanitize s) = sanitize s`, where `sanitize` drops
`$`-prefixed keys, normalizes `required` to a string array, normalizes
`enum` to an array, truncates descriptions, recurses into nested objects
and `items`, and coerces `default` values to the declared `type`. -/
theorem C9_sanitize_idempotent (s : Json) :
    sanitizeSchema (sanitizeSchema s) = sanitizeSchema s :=
  sanitizeSchema_idem s

/-- C8: every description string placed in the generated document passes
through `truncateDescription`: a string of at most 300 characters is kept
unchanged, a longer one is emitted with exactly 300 characters ending in
`...`. The third conjunct shows the operation object emits exactly the
truncation of the tool description, and the fourth that the tenant
description is embedded in the document description in truncated form. -/
theorem C8_description_truncation :
    (∀ s : String, s.length ≤ 300 → truncateDescription s = s) ∧
    (∀ s : String, 300 < s.length →
      (truncateDescription s).length = 300 ∧ ∃ t, truncateDescription s = t ++ "...") ∧
    (∀ (cid : String) (tool : MCPToolDefinition),
      (objGet (generatePathForTool cid tool) "post").bind (objGet · "description") =
        some (.str (truncateDescription tool.description))) ∧
    (∀ (space : APISpace) (d : String), space.description = some d → d ≠ "" →
      ∃ rest, generateDescription (some space) = truncateDescription d ++ rest) := by
  refine ⟨fun s h => truncateDescription_eq_self h, fun s h => ?_, fun cid tool => ?_, ?_⟩
  · refine ⟨truncateDescription_length_of_gt h, strTake s 297, ?_⟩
    have he : s ≠ "" := by
      intro hs; subst hs; simp [string_length_eq] at h
    have hlen : ¬s.length ≤ 300 := by omega
    simp [truncateDescription, he, hlen]
  · simp [generatePathForTool, objGet, mapGet]
  · intro space d hd hne
    refine ⟨"\n\n" ++ "RESTifyMCP provides access to tools registered by connected clients." ++
      "\n\nThis API Space '" ++ space.name ++ "' provides access to tools from " ++
      toString space.allowedClientTokens.length ++ " allowed clients.", ?_⟩
    simp only [generateDescription, hd, hne, if_false, ite_false]
    simp [String.append_assoc]

/-- Witness for C8 at concrete inputs: a 3-character description is kept,
a 301-character description is cut to 300 with a trailing ellipsis, and
the generated operation/document carry the truncated strings. -/
theorem C8_description_truncation_witness :
    truncateDescription "abc" = "abc" ∧
    ((truncateDescription ⟨List.replicate 301 'a'⟩).length = 300 ∧
      ∃ t, truncateDescription ⟨List.replicate 301 'a'⟩ = t ++ "...") ∧
    (objGet (generatePathForTool "cid" ⟨"echo", "say hi", .obj [], .null⟩) "post").bind
      (objGet · "description") = some (.str (truncateDescription "say hi")) ∧
    ∃ rest, generateDescription (some ⟨"S", some "tenant blurb", "tok", ["w"]⟩) =
      truncateDescription "tenant blurb" ++ rest :=
  ⟨C8_description_truncation.1 "abc" (by decide),
   C8_description_truncation.2.1 ⟨List.replicate 301 'a'⟩ (by decide),
   C8_description_truncation.2.2.1 "cid" ⟨"echo", "say hi", .obj [], .null⟩,
   C8_description_truncation.2.2.2 ⟨"S", some "tenant blurb", "tok", ["w"]⟩ "tenant blurb"
     rfl (by decide)⟩

/-- C1 counterexample: two connected workers admitted into tenant `T`
both offer tool `t`; the worker registered FIRST (`ida`, description
"from A") does not own the emitted operation — the document's single
`/api/tools/t` entry carries the operation of the LAST-registered worker
(`idb`, description "from B"), which differs from the first worker's
operation. This refutes first-come-wins as stated. -/
theorem C1_counterexample :
    mapGet
      (generateSpecPaths
        [⟨"ida", "wa", [⟨"t", "from A", .obj [], .null⟩], .connected, some "c1"⟩,
         ⟨"idb", "wb", [⟨"t", "from B", .obj [], .null⟩], .connected, some "c2"⟩]
        (some ⟨"T", none, "tt", ["wa", "wb"]⟩))
      (toolPathKey "t") =
      some (generatePathForTool "idb" ⟨"t", "from B", .obj [], .null⟩) ∧
    generatePathForTool "idb" ⟨"t", "from B", .obj [], .null⟩ ≠
      generatePathForTool "ida" ⟨"t", "from A", .obj [], .null⟩ := by
  exact ⟨by decide, by decide⟩

/-- C1 amended: for every tenant `T` and tool name, the description
document generated for `T` contains at most one path entry per key (the
paths map has no duplicate keys, so a duplicated tool name yields exactly
one `/api/tools/name` entry), and the operation emitted at
`/api/tools/name` is the one of the LAST still-connected admitted worker
(in registration order) offering that name — within one worker, of its
last tool with that name; the earlier worker's operation is silently
overwritten (last-come-wins, not first-come-wins). -/
theorem C1_amended_last_wins (clients : List ClientRegistration) (space : APISpace)
    (name : String) :
    ((generateSpecPaths clients (some space)).map Prod.fst).Nodup ∧
    mapGet (generateSpecPaths clients (some space)) (toolPathKey name) =
      lastProviderByName name (filterClientsForApiSpace clients (some space)) := by
  constructor
  · exact generatePaths_keys_nodup _
  · unfold generateSpecPaths
    rw [generatePaths_get, lastPathForKey_byName]

/-! ### API Space manager (`src/server/api-space-manager.ts`)

`DefaultAPISpaceManager.initialize` fills three JS `Map`s from the
configured spaces; lookups below are over those maps. The client
registrations map is shared with the rest of the server and passed
explicitly. -/

/-- Registration map of the server: client-id to registration, in
insertion (first-registration) order, keys unique (it is a JS `Map`). -/
abbrev Regs : Type := List (String × ClientRegistration)

/-- The manager's `spaceNameToSpace` map. -/
def spaceNameToSpace (apiSpaces : List APISpace) : List (String × APISpace) :=
  apiSpaces.foldl (fun m space => mapSet m space.name space) []

/-- The manager's `spaceTokenToName` map. -/
def spaceTokenToName (apiSpaces : List APISpace) : List (String × String) :=
  apiSpaces.foldl (fun m space => mapSet m space.bearerToken space.name) []

/-- `DefaultAPISpaceManager.getSpaceByName`. -/
def getSpaceByName (apiSpaces : List APISpace) (spaceName : String) : Option APISpace :=
  mapGet (spaceNameToSpace apiSpaces) spaceName

/-- `DefaultAPISpaceManager.getSpaceByToken`. -/
def getSpaceByToken (apiSpaces : List APISpace) (spaceToken : String) : Option APISpace :=
  match mapGet (spaceTokenToName apiSpaces) spaceToken with
  | none => none
  | some spaceName => getSpaceByName apiSpaces spaceName

/-- `DefaultAPISpaceManager.getAllSpaces` (values of `spaceNameToSpace`). -/
def getAllSpaces (apiSpaces : List APISpace) : List APISpace :=
  (spaceNameToSpace apiSpaces).map Prod.snd

/-- `DefaultAPISpaceManager.getAllSpaceTokens` (keys of `spaceTokenToName`). -/
def getAllSpaceTokens (apiSpaces : List APISpace) : List String :=
  (spaceTokenToName apiSpaces).map Prod.fst

/-- `DefaultAPISpaceManager.isClientAllowedInSpace`: resolve the space by
name, the client by id, then test membership of the client's bearer token
in the space's `allowedClientTokens`. -/
def isClientAllowedInSpace (regs : Regs) (apiSpaces : List APISpace)
    (clientId spaceName : String) : Bool :=
  match getSpaceByName apiSpaces spaceName with
  | none => false
  | some space =>
      match mapGet regs clientId with
      | none => false
      | some client => space.allowedClientTokens.contains client.bearerToken

/-! ### Authentication service (`src/server/auth.ts`, API-Space version) -/

/-- `BearerAuthService.getClientIdFromToken`: the first registration (in
map order) whose bearer token equals the token. -/
def getClientIdFromToken (regs : Regs) (token : String) : Option String :=
  (List.find? (fun p => p.2.bearerToken == token) regs).map Prod.fst

/-- `BearerAuthService.validateBearerToken`: the token is an API Space
token, a registered client token, or the (truthy) admin token. -/
def validateBearerToken (apiSpaces : List APISpace) (regs : Regs)
    (adminToken : Option String) (token : String) : Bool :=
  (getSpaceByToken apiSpaces token).isSome ||
  regs.any (fun p => p.2.bearerToken == token) ||
  (match adminToken with
   | some a => !(a == "") && token == a
   | none => false)

/-- Shape of the incoming `Authorization` header, as the middleware
classifies it: absent, not of the form `Bearer <token>`, or a bearer
token. The string splitting itself is Express/JS plumbing. -/
inductive AuthHeader where
  | missing
  | malformed
  | bearer (token : String)
deriving DecidableEq, Repr

/-- Outcome of the authentication middleware. -/
inductive AuthOutcome where
  | rejected (status : Nat) (code : String)
  | passed (token : String)
deriving DecidableEq, Repr

/-- `BearerAuthService.authenticateRequest`: 401 without or with a
malformed header, 403 for a token that validates nowhere, otherwise the
token is attached to the request and the chain continues. -/
def authenticateRequest (apiSpaces : List APISpace) (regs : Regs)
    (adminToken : Option String) : AuthHeader → AuthOutcome
  | .missing => .rejected 401 "MISSING_AUTH_HEADER"
  | .malformed => .rejected 401 "INVALID_AUTH_FORMAT"
  | .bearer token =>
      if validateBearerToken apiSpaces regs adminToken token then .passed token
      else .rejected 403 "INVALID_TOKEN"

/-- `BearerAuthService.getRequestAPISpace`: the API Space whose bearer
token is the request's (falsy token means none was attached). -/
def getRequestAPISpace (apiSpaces : List APISpace) (token : String) : Option APISpace :=
  if token = "" then none else getSpaceByToken apiSpaces token

/-! ### REST API service (`src/server/rest-api.ts`) -/

/-- The candidate list built by the loop of
`ExpressRESTApiService.findClientForTool`: connected clients allowed in
the space that offer the tool, in registration-map order. -/
def matchingClients (regs : Regs) (apiSpaces : List APISpace) (toolName : String)
    (apiSpace : APISpace) : List String :=
  (regs.filter fun p =>
    p.2.connectionStatus == .connected &&
    isClientAllowedInSpace regs apiSpaces p.1 apiSpace.name &&
    p.2.tools.any (fun t => t.name == toolName)).map Prod.fst

/-- `ExpressRESTApiService.findClientForTool`: none when no candidate;
the single candidate when there is one; with several, the client looked
up by the presented bearer token when it is a (truthy) candidate,
otherwise the first candidate. -/
def findClientForTool (regs : Regs) (apiSpaces : List APISpace)
    (toolName bearerToken : String) (apiSpace : APISpace) : Option String :=
  if (matchingClients regs apiSpaces toolName apiSpace).length = 0 then none
  else if (matchingClients regs apiSpaces toolName apiSpace).length = 1 then
    (matchingClients regs apiSpaces toolName apiSpace).head?
  else
    match getClientIdFromToken regs bearerToken with
    | some cid =>
        if !(cid == "") && (matchingClients regs apiSpaces toolName apiSpace).contains cid
        then some cid
        else (matchingClients regs apiSpaces toolName apiSpace).head?
    | none => (matchingClients regs apiSpaces toolName apiSpace).head?

/-- Result of awaiting `invokeToolOnClient` from the HTTP handler:
either a result or a thrown `RESTifyMCPError` with its code. -/
inductive InvokeOutcome where
  | ok (result : Json)
  | err (code : String) (message : String)
deriving DecidableEq, Repr

/-- An HTTP response as status plus stable error code (none on 200). -/
structure HttpResponse where
  status : Nat
  code : Option String
deriving DecidableEq, Repr

/-- `ExpressRESTApiService.handleToolRequest` after the authentication
middleware attached `bearerToken`: 401/`INVALID_API_SPACE_TOKEN` when no
API Space resolves from the token, 404/`TOOL_NOT_FOUND` when no client
serves the tool in that space, 200 on a successful invocation, and 500
with the thrown error's code otherwise (every `RESTifyMCPError`,
including the 30 s timeout's `REQUEST_TIMEOUT`, is mapped to status
500). -/
def handleToolRequest (regs : Regs) (apiSpaces : List APISpace)
    (toolName bearerToken : String) (invoke : String → String → InvokeOutcome) :
    HttpResponse :=
  match getRequestAPISpace apiSpaces bearerToken with
  | none => ⟨401, some "INVALID_API_SPACE_TOKEN"⟩
  | some apiSpace =>
      match findClientForTool regs apiSpaces toolName bearerToken apiSpace with
      | none => ⟨404, some "TOOL_NOT_FOUND"⟩
      | some clientId =>
          match invoke clientId toolName with
          | .ok _ => ⟨200, none⟩
          | .err code _ => ⟨500, some code⟩

/-! ### Facts about the lookup maps and client selection -/

theorem mapGet_mem {α : Type} {l : List (String × α)} {k : String} {v : α}
    (h : mapGet l k = some v) : (k, v) ∈ l := by
  induction l with
  | nil => simp [mapGet] at h
  | cons hd tl ih =>
      obtain ⟨k', w⟩ := hd
      by_cases hk : k' = k
      · subst hk
        simp [mapGet] at h
        simp [h]
      · simp [mapGet, hk] at h
        exact List.mem_cons_of_mem _ (ih h)

theorem mapGet_of_mem_nodup {α : Type} {l : List (String × α)} {k : String} {v : α}
    (hmem : (k, v) ∈ l) (hnd : (l.map Prod.fst).Nodup) : mapGet l k = some v := by
  induction l with
  | nil => simp at hmem
  | cons hd tl ih =>
      obtain ⟨k', w⟩ := hd
      simp only [List.map_cons, List.nodup_cons] at hnd
      rcases List.mem_cons.mp hmem with hmem | hmem
      · rw [show k' = k from congrArg Prod.fst hmem.symm] at hnd ⊢
        have : w = v := congrArg Prod.snd hmem.symm
        simp [mapGet, this]
      · by_cases hk : k' = k
        · subst hk
          exact absurd (List.mem_map_of_mem Prod.fst hmem) hnd.1
        · simp only [mapGet, if_neg hk]
          exact ih hmem hnd.2

theorem mapSet_mem {α : Type} {m : List (String × α)} {k : String} {v : α} :
    ∀ p ∈ mapSet m k v, p ∈ m ∨ p = (k, v) := by
  induction m with
  | nil => intro p hp; simp [mapSet] at hp; simp [hp]
  | cons hd tl ih =>
      obtain ⟨k', w⟩ := hd
      intro p hp
      by_cases h1 : k' = k
      · subst h1
        simp only [mapSet, if_pos rfl] at hp
        rcases List.mem_cons.mp hp with hp | hp
        · right; rw [hp]
        · left; exact List.mem_cons_of_mem _ hp
      · simp only [mapSet, if_neg h1] at hp
        rcases List.mem_cons.mp hp with hp | hp
        · left; rw [hp]; exact List.mem_cons_self _ _
        · rcases ih p hp with h | h
          · left; exact List.mem_cons_of_mem _ h
          · right; exact h

theorem spaceNameToSpace_coherent (apiSpaces : List APISpace) :
    ∀ p ∈ spaceNameToSpace apiSpaces, p.2.name = p.1 := by
  unfold spaceNameToSpace
  have main : ∀ (l : List APISpace) (acc : List (String × APISpace)),
      (∀ p ∈ acc, p.2.name = p.1) →
      ∀ p ∈ l.foldl (fun m space => mapSet m space.name space) acc, p.2.name = p.1 := by
    intro l
    induction l with
    | nil => intro acc h; simpa using h
    | cons s tl ih =>
        intro acc h
        rw [List.foldl_cons]
        apply ih
        intro p hp
        rcases mapSet_mem p hp with h' | h'
        · exact h p h'
        · rw [h']
  exact main apiSpaces [] (by simp)

theorem getSpaceByName_name {apiSpaces : List APISpace} {n : String} {s : APISpace}
    (h : getSpaceByName apiSpaces n = some s) : s.name = n :=
  spaceNameToSpace_coherent apiSpaces (n, s) (mapGet_mem h)

theorem getSpaceByToken_byName {apiSpaces : List APISpace} {t : String} {s : APISpace}
    (h : getSpaceByToken apiSpaces t = some s) : getSpaceByName apiSpaces s.name = some s := by
  unfold getSpaceByToken at h
  cases hn : mapGet (spaceTokenToName apiSpaces) t with
  | none => rw [hn] at h; exact absurd h (by simp)
  | some n =>
      rw [hn] at h
      rw [getSpaceByName_name h]
      exact h

theorem getRequestAPISpace_some {apiSpaces : List APISpace} {t : String} {s : APISpace}
    (h : getRequestAPISpace apiSpaces t = some s) : getSpaceByToken apiSpaces t = some s := by
  unfold getRequestAPISpace at h
  by_cases ht : t = ""
  · rw [if_pos ht] at h; exact absurd h (by simp)
  · rwa [if_neg ht] at h

theorem isClientAllowedInSpace_spec {regs : Regs} {apiSpaces : List APISpace}
    {cid n : String} (h : isClientAllowedInSpace regs apiSpaces cid n = true) :
    ∃ space client, getSpaceByName apiSpaces n = some space ∧
      mapGet regs cid = some client ∧
      client.bearerToken ∈ space.allowedClientTokens := by
  unfold isClientAllowedInSpace at h
  cases hs : getSpaceByName apiSpaces n with
  | none => rw [hs] at h; exact absurd h (by simp)
  | some space =>
      rw [hs] at h
      cases hc : mapGet regs cid with
      | none => rw [hc] at h; exact absurd h (by simp)
      | some client =>
          rw [hc] at h
          exact ⟨space, client, rfl, rfl, by simpa using h⟩

theorem matchingClients_spec {regs : Regs} {apiSpaces : List APISpace}
    {toolName : String} {apiSpace : APISpace} {cid : String}
    (h : cid ∈ matchingClients regs apiSpaces toolName apiSpace) :
    ∃ c, (cid, c) ∈ regs ∧ c.connectionStatus = .connected ∧
      isClientAllowedInSpace regs apiSpaces cid apiSpace.name = true ∧
      ∃ t ∈ c.tools, t.name = toolName := by
  unfold matchingClients at h
  rcases List.mem_map.mp h with ⟨p, hp, hfst⟩
  rcases List.mem_filter.mp hp with ⟨hmem, hpred⟩
  obtain ⟨k, c⟩ := p
  simp only at hfst
  subst hfst
  simp only [Bool.and_eq_true, beq_iff_eq, List.any_eq_true] at hpred
  refine ⟨c, hmem, hpred.1.1, hpred.1.2, ?_⟩
  rcases hpred.2 with ⟨t, ht, hname⟩
  exact ⟨t, ht, by simpa using hname⟩

theorem findClientForTool_mem {regs : Regs} {apiSpaces : List APISpace}
    {toolName bearerToken : String} {apiSpace : APISpace} {cid : String}
    (h : findClientForTool regs apiSpaces toolName bearerToken apiSpace = some cid) :
    cid ∈ matchingClients regs apiSpaces toolName apiSpace := by
  unfold findClientForTool at h
  by_cases h0 : (matchingClients regs apiSpaces toolName apiSpace).length = 0
  · rw [if_pos h0] at h; exact absurd h (by simp)
  · rw [if_neg h0] at h
    by_cases h1 : (matchingClients regs apiSpaces toolName apiSpace).length = 1
    · rw [if_pos h1] at h
      exact List.mem_of_mem_head? h
    · rw [if_neg h1] at h
      split at h
      · split at h
        · rename_i hin
          cases h
          simp only [Bool.and_eq_true] at hin
          exact List.mem_of_elem_eq_true hin.2
        · exact List.mem_of_mem_head? h
      · exact List.mem_of_mem_head? h

/-! ### Claim theorems: dispatch (C2, C7, C10) -/

/-- C2: every `POST /api/tools/:toolName` answered 200 was dispatched to a
client that is connected, whose bearer token is in the resolved API
Space's `allowedClientTokens`, and whose tool list contains the requested
name. The registration map has unique keys (it is a JS `Map`). -/
theorem C2_dispatch_sound (regs : Regs) (apiSpaces : List APISpace)
    (toolName bearerToken : String) (invoke : String → String → InvokeOutcome)
    (hnd : (regs.map Prod.fst).Nodup)
    (h200 : (handleToolRequest regs apiSpaces toolName bearerToken invoke).status = 200) :
    ∃ (space : APISpace) (clientId : String) (client : ClientRegistration),
      getRequestAPISpace apiSpaces bearerToken = some space ∧
      findClientForTool regs apiSpaces toolName bearerToken space = some clientId ∧
      mapGet regs clientId = some client ∧
      client.connectionStatus = .connected ∧
      client.bearerToken ∈ space.allowedClientTokens ∧
      ∃ t ∈ client.tools, t.name = toolName := by
  unfold handleToolRequest at h200
  split at h200
  · simp at h200
  · rename_i space hsp
    split at h200
    · simp at h200
    · rename_i clientId hfind
      have hmem := findClientForTool_mem hfind
      obtain ⟨c, hcreg, hconn, hallow, htool⟩ := matchingClients_spec hmem
      obtain ⟨space', client', hby, hcget, hintok⟩ := isClientAllowedInSpace_spec hallow
      have hsp' : getSpaceByName apiSpaces space.name = some space :=
        getSpaceByToken_byName (getRequestAPISpace_some hsp)
      have hspeq : space' = space := (Option.some.inj (hsp'.symm.trans hby)).symm
      have hcget' : mapGet regs clientId = some c := mapGet_of_mem_nodup hcreg hnd
      have hceq : client' = c := Option.some.inj (hcget.symm.trans hcget')
      refine ⟨space, clientId, c, ?_, hfind, hcget', hconn, ?_, htool⟩
      · exact hsp
      · rw [← hceq, ← hspeq]
        exact hintok

/-- Witness for C2: a concrete one-tenant, one-worker state in which the
invocation succeeds with 200; the dispatched worker satisfies all three
conditions. -/
theorem C2_dispatch_sound_witness :
    ∃ (space : APISpace) (clientId : String) (client : ClientRegistration),
      getRequestAPISpace
          [⟨"T", none, "tenant-token", ["worker-token"]⟩] "tenant-token" = some space ∧
      findClientForTool
          [("wid", ⟨"wid", "worker-token", [⟨"echo", "d", .obj [], .null⟩],
            .connected, some "c1"⟩)]
          [⟨"T", none, "tenant-token", ["worker-token"]⟩] "echo" "tenant-token" space =
          some clientId ∧
      mapGet
          [("wid", ⟨"wid", "worker-token", [⟨"echo", "d", .obj [], .null⟩],
            .connected, some "c1"⟩)] clientId = some client ∧
      client.connectionStatus = .connected ∧
      client.bearerToken ∈ APISpace.allowedClientTokens ⟨"T", none, "tenant-token", ["worker-token"]⟩ ∧
      ∃ t ∈ client.tools, t.name = "echo" := by
  have := C2_dispatch_sound
    [("wid", ⟨"wid", "worker-token", [⟨"echo", "d", .obj [], .null⟩], .connected, some "c1"⟩)]
    [⟨"T", none, "tenant-token", ["worker-token"]⟩]
    "echo" "tenant-token" (fun _ _ => .ok .null) (by decide) (by decide)
  obtain ⟨space, clientId, client, h1, h2, h3, h4, h5, h6⟩ := this
  have hts : getRequestAPISpace
      [⟨"T", none, "tenant-token", ["worker-token"]⟩] "tenant-token" =
      some ⟨"T", none, "tenant-token", ["worker-token"]⟩ := by decide
  have hspace : space = ⟨"T", none, "tenant-token", ["worker-token"]⟩ :=
    (Option.some.inj (hts.symm.trans h1)).symm
  subst hspace
  exact ⟨_, clientId, client, h1, h2, h3, h4, h5, h6⟩

/-- Concrete tenant used by the C7 scenario: its own token `TT` is also an
admitted worker token, along with `WB`. -/
def c7Space : APISpace := ⟨"T", none, "TT", ["TT", "WB"]⟩

/-- Concrete registrations used by the C7 scenario: worker `y-id`
registered first with bearer token `TT` (the tenant's token); worker
`x-id` registered later with token `WB`. Both are connected, admitted and
offer tool `t`. -/
def c7Regs : Regs :=
  [("y-id", ⟨"y-id", "TT", [⟨"t", "d1", .obj [], .null⟩], .connected, some "c1"⟩),
   ("x-id", ⟨"x-id", "WB", [⟨"t", "d2", .obj [], .null⟩], .connected, some "c2"⟩)]

/-- C7 counterexample: with the hash function instantiated so that
`sha256(tenant.bearer_token) = "x-id"`, the candidate `x-id` has exactly
the worker-id the claim says must be preferred, yet `findClientForTool`
selects `y-id`: the code prefers the first registration whose BEARER
TOKEN equals the tenant token (a map lookup by token), not the candidate
whose id equals the hash of the tenant token. -/
theorem C7_counterexample :
    ((fun _ => "x-id") : String → String) c7Space.bearerToken = "x-id" ∧
    "x-id" ∈ matchingClients c7Regs [c7Space] "t" c7Space ∧
    2 ≤ (matchingClients c7Regs [c7Space] "t" c7Space).length ∧
    findClientForTool c7Regs [c7Space] "t" c7Space.bearerToken c7Space = some "y-id" ∧
    ("y-id" : String) ≠ "x-id" :=
  ⟨rfl, by decide, by decide, by decide, by decide⟩

/-- C7 amended: with more than one candidate, the selected worker is the
FIRST registration (in map order) whose bearer token equals the tenant's
bearer token, provided its id is truthy and it is among the candidates;
otherwise the first candidate in registration order. (The code never
hashes the tenant token; affinity is by bearer-token equality.) -/
theorem C7_amended_token_affinity (regs : Regs) (apiSpaces : List APISpace)
    (toolName : String) (space : APISpace)
    (h2 : 2 ≤ (matchingClients regs apiSpaces toolName space).length) :
    findClientForTool regs apiSpaces toolName space.bearerToken space =
      match List.find? (fun p => p.2.bearerToken == space.bearerToken) regs with
      | some p =>
          if p.1 ≠ "" ∧ p.1 ∈ matchingClients regs apiSpaces toolName space then some p.1
          else (matchingClients regs apiSpaces toolName space).head?
      | none => (matchingClients regs apiSpaces toolName space).head? := by
  have h0 : ¬(matchingClients regs apiSpaces toolName space).length = 0 := by omega
  have h1 : ¬(matchingClients regs apiSpaces toolName space).length = 1 := by omega
  unfold findClientForTool getClientIdFromToken
  rw [if_neg h0, if_neg h1]
  cases hf : List.find? (fun p => p.2.bearerToken == space.bearerToken) regs with
  | none => simp
  | some p =>
      simp only [Option.map_some']
      have hbool : (!(p.1 == "") &&
          (matchingClients regs apiSpaces toolName space).contains p.1) = true ↔
          (p.1 ≠ "" ∧ p.1 ∈ matchingClients regs apiSpaces toolName space) := by
        simp [List.contains, List.elem_iff]
      by_cases hc : p.1 ≠ "" ∧ p.1 ∈ matchingClients regs apiSpaces toolName space
      · rw [if_pos (hbool.mpr hc), if_pos hc]
      · rw [if_neg fun hx => hc (hbool.mp hx), if_neg hc]

/-- Witness for the amended C7 at the concrete two-candidate scenario. -/
theorem C7_amended_token_affinity_witness :
    findClientForTool c7Regs [c7Space] "t" c7Space.bearerToken c7Space =
      match List.find? (fun p => p.2.bearerToken == c7Space.bearerToken) c7Regs with
      | some p =>
          if p.1 ≠ "" ∧ p.1 ∈ matchingClients c7Regs [c7Space] "t" c7Space then some p.1
          else (matchingClients c7Regs [c7Space] "t" c7Space).head?
      | none => (matchingClients c7Regs [c7Space] "t" c7Space).head? :=
  C7_amended_token_affinity c7Regs [c7Space] "t" c7Space (by decide)

/-- C10: a bearer token that belongs to some registered worker but to no
API Space passes the authentication middleware (it is never rejected with
403/`INVALID_TOKEN`), and the tool handler then fails with
401/`INVALID_API_SPACE_TOKEN` because no API Space resolves from it. -/
theorem C10_worker_token_rejected_in_handler (apiSpaces : List APISpace) (regs : Regs)
    (adminToken : Option String) (token toolName : String)
    (invoke : String → String → InvokeOutcome)
    (hw : regs.any (fun p => p.2.bearerToken == token) = true)
    (hs : getSpaceByToken apiSpaces token = none) :
    authenticateRequest apiSpaces regs adminToken (.bearer token) = .passed token ∧
    handleToolRequest regs apiSpaces toolName token invoke =
      ⟨401, some "INVALID_API_SPACE_TOKEN"⟩ := by
  constructor
  · unfold authenticateRequest validateBearerToken
    simp [hs, hw]
  · unfold handleToolRequest getRequestAPISpace
    by_cases ht : token = ""
    · rw [if_pos ht]
    · rw [if_neg ht, hs]

/-- Witness for C10: worker token `WTOK` is registered but is no tenant's
token; the middleware passes it and the handler answers
401/`INVALID_API_SPACE_TOKEN`. -/
theorem C10_worker_token_rejected_in_handler_witness :
    authenticateRequest [⟨"T", none, "TT", ["WTOK"]⟩]
        [("wid", ⟨"wid", "WTOK", [], .connected, some "c"⟩)] none (.bearer "WTOK") =
      .passed "WTOK" ∧
    handleToolRequest [("wid", ⟨"wid", "WTOK", [], .connected, some "c"⟩)]
        [⟨"T", none, "TT", ["WTOK"]⟩] "echo" "WTOK" (fun _ _ => .ok .null) =
      ⟨401, some "INVALID_API_SPACE_TOKEN"⟩ :=
  C10_worker_token_rejected_in_handler [⟨"T", none, "TT", ["WTOK"]⟩]
    [("wid", ⟨"wid", "WTOK", [], .connected, some "c"⟩)] none "WTOK" "echo"
    (fun _ _ => .ok .null) (by decide) (by decide)

/-! ### WebSocket server (`src/server/websocket-server.ts`)

`WSServer` state: the shared registrations map, the open connections map
(`clientConnections`), and the pending-request table keyed by request id.
Keep-alive timers are cleared on close and carry no claim-relevant state,
so they are omitted. -/

/-- Per-connection data the server stores on the socket object: the
client id attached at registration (absent until then). -/
structure Conn where
  clientId : Option String
deriving DecidableEq, Repr

/-- A `PendingRequest` as the router stores it: the client the request
was dispatched to. The `resolve`/`reject` completion slots are the HTTP
waiters; an entry present in the table is an invocation still waiting. -/
structure PendingRequest where
  clientId : String
deriving DecidableEq, Repr

/-- The mutable state of `WSServer`. -/
structure WSState where
  regs : Regs
  conns : List (String × Conn)
  pending : List (String × PendingRequest)
deriving DecidableEq, Repr

/-- Events `WSServer` emits to its listeners. -/
inductive WsEvent where
  | connect (clientId : String)
  | disconnect (clientId : String)
deriving DecidableEq, Repr

/-- The mutation `handleClose` applies to the client record: status
`disconnected`, `connectionId` deleted. -/
def disconnectClient (c : ClientRegistration) : ClientRegistration :=
  { c with connectionStatus := .disconnected, connectionId := none }

/-- `WSServer.handleClose`: look the connection up, drop it from the
connections map, and — when it had a client id and that client's current
`connectionId` still equals the closing connection (the session-id
guard) — mark the client disconnected and emit a `disconnect` event.
The pending-request table is not touched. -/
def handleClose (st : WSState) (connectionId : String) : WSState × List WsEvent :=
  match mapGet st.conns connectionId with
  | none => (st, [])
  | some conn =>
      match conn.clientId with
      | none => ({ st with conns := mapRemove st.conns connectionId }, [])
      | some clientId =>
          match mapGet st.regs clientId with
          | none => ({ st with conns := mapRemove st.conns connectionId }, [])
          | some client =>
              if client.connectionId = some connectionId then
                ({ st with
                    conns := mapRemove st.conns connectionId,
                    regs := mapSet st.regs clientId (disconnectClient client) },
                 [.disconnect clientId])
              else ({ st with conns := mapRemove st.conns connectionId }, [])

/-- Payload of a `register` frame. `tools` is typed as a list, so the
source's `Array.isArray(payload.tools)` check always passes here; JS
falsiness of the two strings is the empty-string test. -/
structure RegistrationMessage where
  clientId : String
  bearerToken : String
  tools : List MCPToolDefinition
deriving DecidableEq, Repr

/-- Result of `WSServer.handleRegister`: the thrown error's code (the
error frame sent back carries code `REGISTRATION_ERROR` and the thrown
message), or acceptance with the stored client id. -/
inductive RegisterResult where
  | rejected (code : String)
  | accepted (clientId : String)
deriving DecidableEq, Repr

/-- `WSServer.handleRegister` over the registrations map (`sha` stands
for `generateClientIdFromToken`, kept as a parameter; note the
`payload.clientId || generateClientIdFromToken(...)` fallback is dead
after the validation, which already rejected a falsy `clientId`).
On rejection nothing is stored. The closing of a previous connection of
the same client id (claim-wins) only sends a close frame and does not
change the maps here; its effects arrive through `handleClose`. -/
def handleRegister (sha : String → String) (clientAuthToken : String) (regs : Regs)
    (connectionId : String) (payload : RegistrationMessage) : RegisterResult × Regs :=
  if payload.clientId = "" || payload.bearerToken = "" then
    (.rejected "INVALID_PAYLOAD", regs)
  else if payload.bearerToken ≠ clientAuthToken then
    (.rejected "INVALID_TOKEN", regs)
  else
    let clientId := if payload.clientId = "" then sha payload.bearerToken
      else payload.clientId
    let client : ClientRegistration :=
      ⟨clientId, payload.bearerToken, payload.tools, .connected, some connectionId⟩
    (.accepted clientId, mapSet regs clientId client)

/-- What the timer armed by `WSServer.sendToolRequest` does when the 30 s
deadline fires: delete the pending entry and reject the waiting HTTP
handler with a `RESTifyMCPError` of code `REQUEST_TIMEOUT`. -/
def onRequestTimeout (pending : List (String × PendingRequest)) (requestId : String) :
    List (String × PendingRequest) × InvokeOutcome :=
  (mapRemove pending requestId,
   .err "REQUEST_TIMEOUT" "Tool request timed out after 30000ms")

/-- Payload of a `tool_response` frame. -/
structure ToolResponsePayload where
  requestId : String
  result : Json
  error : Option String
deriving DecidableEq, Repr

/-- What `WSServer.handleToolResponse` does with the pending table. -/
inductive ToolResponseAction where
  | invalidPayload
  | lateDiscarded
  | resolved (result : Json)
  | rejectedErr (code : String)
deriving DecidableEq, Repr

/-- `WSServer.handleToolResponse`: a falsy request id is an invalid
payload (logged, nothing changes); an id with no pending entry is logged
and discarded without touching any state; otherwise the entry is removed
and the waiter resolved or rejected (`TOOL_ERROR`) according to the
truthiness of `payload.error`. -/
def handleToolResponse (pending : List (String × PendingRequest))
    (payload : ToolResponsePayload) :
    List (String × PendingRequest) × ToolResponseAction :=
  if payload.requestId = "" then (pending, .invalidPayload)
  else
    match mapGet pending payload.requestId with
    | none => (pending, .lateDiscarded)
    | some _ =>
        match payload.error with
        | some e =>
            if e = "" then (mapRemove pending payload.requestId, .resolved payload.result)
            else (mapRemove pending payload.requestId, .rejectedErr "TOOL_ERROR")
        | none => (mapRemove pending payload.requestId, .resolved payload.result)

theorem mapGet_mapRemove_self {α : Type} (l : List (String × α)) (k : String)
    (hnd : (l.map Prod.fst).Nodup) : mapGet (mapRemove l k) k = none := by
  induction l with
  | nil => rfl
  | cons hd tl ih =>
      obtain ⟨k', v⟩ := hd
      simp only [List.map_cons, List.nodup_cons] at hnd
      by_cases h : k' = k
      · subst h
        simp only [mapRemove, if_pos rfl]
        exact mapGet_eq_none_of_keys fun p hp hk =>
          hnd.1 (hk ▸ List.mem_map_of_mem Prod.fst hp)
      · simp only [mapRemove, if_neg h, mapGet, if_neg h]
        exact ih hnd.2

theorem mapGet_mapRemove_ne {α : Type} (l : List (String × α)) (k k' : String)
    (hne : k' ≠ k) : mapGet (mapRemove l k) k' = mapGet l k' := by
  induction l with
  | nil => rfl
  | cons hd tl ih =>
      obtain ⟨k₀, v⟩ := hd
      by_cases h : k₀ = k
      · subst h
        have hne' : ¬k₀ = k' := fun he => hne he.symm
        simp [mapRemove, mapGet, hne']
      · simp only [mapRemove, if_neg h, mapGet]
        by_cases h2 : k₀ = k'
        · simp [h2]
        · simp [h2, ih]

/-! ### Claim theorems: session close, registration, timeout (C3, C4, C5) -/

/-- C3 counterexample: a session carrying worker `cid` closes while one
invocation (`r1`) dispatched to that worker over that session is pending.
`handleClose` marks the worker disconnected (session-id guard satisfied)
and emits the disconnect event, but the pending invocation is NOT failed:
the table still holds `r1` afterwards, so it is left waiting until its
30 s deadline — refuting the claim that every such pending invocation is
rejected with WorkerDisconnected at close time. -/
theorem C3_counterexample :
    (handleClose
      ⟨[("cid", ⟨"cid", "WTOK", [], .connected, some "c1"⟩)],
       [("c1", ⟨some "cid"⟩)], [("r1", ⟨"cid"⟩)]⟩ "c1").2 = [.disconnect "cid"] ∧
    mapGet (handleClose
      ⟨[("cid", ⟨"cid", "WTOK", [], .connected, some "c1"⟩)],
       [("c1", ⟨some "cid"⟩)], [("r1", ⟨"cid"⟩)]⟩ "c1").1.regs "cid" =
      some ⟨"cid", "WTOK", [], .disconnected, none⟩ ∧
    (handleClose
      ⟨[("cid", ⟨"cid", "WTOK", [], .connected, some "c1"⟩)],
       [("c1", ⟨some "cid"⟩)], [("r1", ⟨"cid"⟩)]⟩ "c1").1.pending =
      [("r1", ⟨"cid"⟩)] ∧
    ([("r1", (⟨"cid"⟩ : PendingRequest))] : List (String × PendingRequest)) ≠ [] :=
  ⟨by decide, by decide, by decide, by decide⟩

/-- C3 amended: on session close the worker is marked disconnected under
the session-id guard and a `disconnect` event is emitted, but NO pending
invocation is failed at close time: `handleClose` leaves the
pending-request table unchanged in every case, so an invocation in flight
on the closed session waits until its own 30 s deadline (only `stop`
rejects all pending invocations, with `SERVER_SHUTDOWN`). -/
theorem C3_amended_close_leaves_pending (st : WSState) (connectionId : String) :
    (handleClose st connectionId).1.pending = st.pending ∧
    (∀ conn clientId client,
      mapGet st.conns connectionId = some conn →
      conn.clientId = some clientId →
      mapGet st.regs clientId = some client →
      client.connectionId = some connectionId →
      (handleClose st connectionId).2 = [.disconnect clientId] ∧
      (handleClose st connectionId).1.regs =
        mapSet st.regs clientId (disconnectClient client)) := by
  constructor
  · unfold handleClose
    split
    · rfl
    · split
      · rfl
      · split
        · rfl
        · split <;> rfl
  · intro conn clientId client hconn hcid hclient hguard
    simp [handleClose, hconn, hcid, hclient, hguard]

/-- C4 counterexample: a `register` frame presenting `worker_id` `bogus`
and the correct auth token is ACCEPTED and a record is stored under
`bogus`, although `bogus` differs from the hash of the token (the hash
function is instantiated as a concrete stand-in; `handleRegister` never
invokes it on a non-empty client id). The server performs no
`worker_id = SHA-256(worker_token)` check. -/
theorem C4_counterexample :
    (handleRegister (fun _ => "deadbeef") "TOK" [] "c1" ⟨"bogus", "TOK", []⟩).1 =
      .accepted "bogus" ∧
    ("bogus" : String) ≠ ((fun _ => "deadbeef") : String → String) "TOK" ∧
    mapGet (handleRegister (fun _ => "deadbeef") "TOK" [] "c1" ⟨"bogus", "TOK", []⟩).2
      "bogus" = some ⟨"bogus", "TOK", [], .connected, some "c1"⟩ :=
  ⟨by decide, by decide, by decide⟩

/-- C4 amended: a registration with non-empty `clientId` and
`bearerToken` is accepted exactly when the bearer token equals the
server's client-auth token, and the record is stored under the PRESENTED
client id as-is; when the token differs the registration is rejected
(`INVALID_TOKEN`) and nothing is stored. No comparison of the presented
id against `sha(token)` occurs in either case (the statement holds for
every hash function `sha`). -/
theorem C4_amended_register_no_hash_check (sha : String → String)
    (clientAuthToken : String) (regs : Regs) (connectionId : String)
    (payload : RegistrationMessage)
    (hid : payload.clientId ≠ "") (htok : payload.bearerToken ≠ "") :
    (payload.bearerToken = clientAuthToken →
      handleRegister sha clientAuthToken regs connectionId payload =
        (.accepted payload.clientId,
         mapSet regs payload.clientId
           ⟨payload.clientId, payload.bearerToken, payload.tools, .connected,
            some connectionId⟩)) ∧
    (payload.bearerToken ≠ clientAuthToken →
      handleRegister sha clientAuthToken regs connectionId payload =
        (.rejected "INVALID_TOKEN", regs)) := by
  constructor <;> intro h
  · have htok' : clientAuthToken ≠ "" := h ▸ htok
    simp [handleRegister, hid, htok, htok', h]
  · simp [handleRegister, hid, htok, h]

/-- Witness for the amended C4 at a concrete accepted registration. -/
theorem C4_amended_register_no_hash_check_witness :
    handleRegister (fun _ => "deadbeef") "TOK" [] "c1" ⟨"bogus", "TOK", []⟩ =
      (.accepted "bogus",
       mapSet [] "bogus" ⟨"bogus", "TOK", [], .connected, some "c1"⟩) :=
  (C4_amended_register_no_hash_check (fun _ => "deadbeef") "TOK" [] "c1"
    ⟨"bogus", "TOK", []⟩ (by decide) (by decide)).1 rfl

/-- C5 counterexample: an invocation whose 30 s deadline fires is
answered with HTTP status 500 and code `REQUEST_TIMEOUT` (the handler's
catch block maps every `RESTifyMCPError` to 500), not with 504 as the
claim states. -/
theorem C5_counterexample :
    handleToolRequest
      [("wid", ⟨"wid", "WTOK", [⟨"echo", "d", .obj [], .null⟩], .connected, some "c1"⟩)]
      [⟨"T", none, "TT", ["WTOK"]⟩] "echo" "TT"
      (fun _ _ => (onRequestTimeout [("r1", ⟨"wid"⟩)] "r1").2) =
      ⟨500, some "REQUEST_TIMEOUT"⟩ ∧
    (500 : Nat) ≠ 504 :=
  ⟨by decide, by decide⟩

/-- C5 amended: at the 30 s deadline the pending entry keyed by the
request id is removed (other entries untouched) and the waiting handler
is rejected with `REQUEST_TIMEOUT`, which the HTTP layer answers as
status 500 (not 504) with code `REQUEST_TIMEOUT`; a `tool_response`
arriving after the timeout finds no pending entry and is logged and
discarded with no state change. -/
theorem C5_amended_timeout_behavior (pending : List (String × PendingRequest))
    (requestId : String) (regs : Regs) (apiSpaces : List APISpace)
    (toolName bearerToken msg : String) (space : APISpace) (cid : String)
    (hnd : (pending.map Prod.fst).Nodup)
    (hsp : getRequestAPISpace apiSpaces bearerToken = some space)
    (hfind : findClientForTool regs apiSpaces toolName bearerToken space = some cid) :
    mapGet (onRequestTimeout pending requestId).1 requestId = none ∧
    (∀ rid, rid ≠ requestId →
      mapGet (onRequestTimeout pending requestId).1 rid = mapGet pending rid) ∧
    handleToolRequest regs apiSpaces toolName bearerToken
      (fun _ _ => .err "REQUEST_TIMEOUT" msg) = ⟨500, some "REQUEST_TIMEOUT"⟩ ∧
    (∀ payload : ToolResponsePayload, payload.requestId ≠ "" →
      mapGet pending payload.requestId = none →
      handleToolResponse pending payload = (pending, .lateDiscarded)) := by
  refine ⟨mapGet_mapRemove_self pending requestId hnd,
    fun rid hr => mapGet_mapRemove_ne pending requestId rid hr, ?_, ?_⟩
  · simp [handleToolRequest, hsp, hfind]
  · intro payload hne hnone
    unfold handleToolResponse
    rw [if_neg hne, hnone]

/-- Witness for the amended C5 at a concrete pending table and a
resolvable invocation. -/
theorem C5_amended_timeout_behavior_witness :
    mapGet (onRequestTimeout [("r1", ⟨"wid"⟩)] "r1").1 "r1" = none ∧
    (∀ rid, rid ≠ "r1" →
      mapGet (onRequestTimeout [("r1", ⟨"wid"⟩)] "r1").1 rid =
        mapGet [("r1", ⟨"wid"⟩)] rid) ∧
    handleToolRequest
      [("wid", ⟨"wid", "WTOK", [⟨"echo", "d", .obj [], .null⟩], .connected, some "c1"⟩)]
      [⟨"T", none, "TT", ["WTOK"]⟩] "echo" "TT"
      (fun _ _ => .err "REQUEST_TIMEOUT" "Tool request timed out after 30000ms") =
      ⟨500, some "REQUEST_TIMEOUT"⟩ ∧
    (∀ payload : ToolResponsePayload, payload.requestId ≠ "" →
      mapGet [("r1", (⟨"wid"⟩ : PendingRequest))] payload.requestId = none →
      handleToolResponse [("r1", ⟨"wid"⟩)] payload =
        ([("r1", ⟨"wid"⟩)], .lateDiscarded)) :=
  C5_amended_timeout_behavior [("r1", ⟨"wid"⟩)] "r1"
    [("wid", ⟨"wid", "WTOK", [⟨"echo", "d", .obj [], .null⟩], .connected, some "c1"⟩)]
    [⟨"T", none, "TT", ["WTOK"]⟩] "echo" "TT"
    "Tool request timed out after 30000ms" ⟨"T", none, "TT", ["WTOK"]⟩ "wid"
    (by decide) (by decide) (by decide)

/-! ### Admin service (`admin-service.ts`) and configuration validation
(`config.ts`, API-Space version) -/

/-- `DefaultAdminService.getTokenHash`: first 16 hex characters of the
SHA-256 of the token (`sha` stands for the hex digest). -/
def getTokenHash (sha : String → String) (token : String) : String :=
  strTake (sha token) 16

/-- `DefaultAdminService.initializeTokenHashes`: for every configured
space (in map order), set `tokenHashes[hash] = bearerToken`. A later
space whose hash collides silently overwrites the earlier entry. -/
def initializeTokenHashes (sha : String → String) (apiSpaces : List APISpace) :
    List (String × String) :=
  (getAllSpaces apiSpaces).foldl
    (fun m space => mapSet m (getTokenHash sha space.bearerToken) space.bearerToken) []

/-- `DefaultAdminService.getAPISpaceByTokenHash`, backing the
`/openapi/:tokenHash/...` routes. -/
def getAPISpaceByTokenHash (sha : String → String) (apiSpaces : List APISpace)
    (hash : String) : Option APISpace :=
  match mapGet (initializeTokenHashes sha apiSpaces) hash with
  | none => none
  | some token => getSpaceByToken apiSpaces token

/-- The zod `apiSpaceSchema` constraints of `config.ts`: non-empty name,
bearer token of at least 32 characters, at least one allowed client token
each of at least 32 characters. -/
def validApiSpace (s : APISpace) : Bool :=
  1 ≤ s.name.length && 32 ≤ s.bearerToken.length &&
  1 ≤ s.allowedClientTokens.length && s.allowedClientTokens.all fun t => 32 ≤ t.length

/-- Everything server startup validates about the configured API Spaces:
the zod array constraint (`min(1)` with per-space checks) together with
`RESTifyServer.start`'s re-check that the array is non-empty. No other
startup check exists; in particular nothing computes or compares token
hashes. -/
def serverStartupOk (apiSpaces : List APISpace) : Bool :=
  1 ≤ apiSpaces.length && apiSpaces.all validApiSpace

/-- Last-wins reading of a fold of `mapSet` assignments, keyed through
`f` with values through `g`. -/
theorem foldl_mapSet_get {α β : Type} (f : α → String) (g : α → β) :
    ∀ (l : List α) (acc : List (String × β)) (key : String),
      mapGet (l.foldl (fun m x => mapSet m (f x) (g x)) acc) key =
        match lastMatch (fun x => f x == key) l with
        | some x => some (g x)
        | none => mapGet acc key := by
  intro l
  induction l with
  | nil => intro acc key; simp [lastMatch]
  | cons x tl ih =>
      intro acc key
      rw [List.foldl_cons, ih]
      simp only [lastMatch]
      cases hlast : lastMatch (fun x => f x == key) tl with
      | some y => simp
      | none =>
          simp only []
          rw [mapGet_mapSet]
          by_cases hk : f x = key
          · simp [hk]
          · simp [hk]

/-- C6 counterexample: two distinct valid tenants whose token hashes
collide (hash instantiated as a constant stand-in). Startup validation
accepts the configuration — nothing prevents startup — and the hash of
tenant `A`'s token resolves to tenant `B`: the later tenant silently
overwrote the mapping, exactly the state the claim says is never
constructed. -/
theorem C6_counterexample :
    serverStartupOk
      [⟨"A", none, "aaaaaaaaaaaaaaaaaaaaaaaaaaaaaaaa", ["aaaaaaaaaaaaaaaaaaaaaaaaaaaaaaaa"]⟩,
       ⟨"B", none, "bbbbbbbbbbbbbbbbbbbbbbbbbbbbbbbb", ["bbbbbbbbbbbbbbbbbbbbbbbbbbbbbbbb"]⟩] =
      true ∧
    getTokenHash (fun _ => "h") "aaaaaaaaaaaaaaaaaaaaaaaaaaaaaaaa" =
      getTokenHash (fun _ => "h") "bbbbbbbbbbbbbbbbbbbbbbbbbbbbbbbb" ∧
    getAPISpaceByTokenHash (fun _ => "h")
      [⟨"A", none, "aaaaaaaaaaaaaaaaaaaaaaaaaaaaaaaa", ["aaaaaaaaaaaaaaaaaaaaaaaaaaaaaaaa"]⟩,
       ⟨"B", none, "bbbbbbbbbbbbbbbbbbbbbbbbbbbbbbbb", ["bbbbbbbbbbbbbbbbbbbbbbbbbbbbbbbb"]⟩]
      (getTokenHash (fun _ => "h") "aaaaaaaaaaaaaaaaaaaaaaaaaaaaaaaa") =
      some ⟨"B", none, "bbbbbbbbbbbbbbbbbbbbbbbbbbbbbbbb", ["bbbbbbbbbbbbbbbbbbbbbbbbbbbbbbbb"]⟩ ∧
    (⟨"B", none, "bbbbbbbbbbbbbbbbbbbbbbbbbbbbbbbb", ["bbbbbbbbbbbbbbbbbbbbbbbbbbbbbbbb"]⟩ :
      APISpace) ≠
      ⟨"A", none, "aaaaaaaaaaaaaaaaaaaaaaaaaaaaaaaa", ["aaaaaaaaaaaaaaaaaaaaaaaaaaaaaaaa"]⟩ :=
  ⟨by decide, by decide, by decide, by decide⟩

/-- C6 amended: token-hash collisions across configured tenants do NOT
prevent startup — the startup validation is exactly the per-space
syntactic checks and never computes a hash — and the hash-to-token map is
built by plain overwriting, so a hash always resolves to the bearer token
of the LAST configured tenant with that hash. -/
theorem C6_amended_collision_overwrites (sha : String → String)
    (apiSpaces : List APISpace) (key : String) :
    (serverStartupOk apiSpaces = true ↔
      1 ≤ apiSpaces.length ∧ ∀ s ∈ apiSpaces, validApiSpace s = true) ∧
    mapGet (initializeTokenHashes sha apiSpaces) key =
      (lastMatch (fun s => getTokenHash sha s.bearerToken == key)
        (getAllSpaces apiSpaces)).map (fun s => s.bearerToken) := by
  constructor
  · simp [serverStartupOk, List.all_eq_true]
  · unfold initializeTokenHashes
    rw [foldl_mapSet_get]
    cases lastMatch (fun s => getTokenHash sha s.bearerToken == key)
      (getAllSpaces apiSpaces) <;> simp [mapGet]

end RESTifyMCP
